import Mathlib

/-!
Verification development for the `cryptominers-worker` repository.

The repository contains five 15-minute uptime cron jobs (ViaBTC, LiteCoinPool,
MiningDutch, F2Pool, Binance), each of which queries a mining pool's HTTP API,
credits +0.25 "online hours" per slot to miners observed hashing, and updates a
coarse `status` column, plus a read-path status service with a 30-second cache.

This file shallowly embeds the decision logic of those jobs: the HTTP / JSON
layer is abstracted into explicit "adapter outcome" inputs, the relational
`UPDATE` statements become pure row transformers, and the external key-value
store (Redis) becomes explicit association-list state threaded through the
group-processing functions.  Each definition mirrors one function of the
JavaScript source; times are modelled in integer minutes (slot clock) or
integer milliseconds (read-path cache), JS `Number` becomes `ℚ`, and SQL
`NULL` becomes `Option`.
-/

/- ===================== shared string helpers ===================== -/

/-- ASCII whitespace removed by JS `trim` (space, TAB, LF, VT, FF, CR). -/
def isJsSpace (c : Char) : Bool :=
  c = ' ' || c.toNat = 9 || c.toNat = 10 || c.toNat = 11 || c.toNat = 12 || c.toNat = 13

/-- Trim on character lists (structural, so the kernel can evaluate it). -/
def trimChars (cs : List Char) : List Char :=
  ((cs.dropWhile isJsSpace).reverse.dropWhile isJsSpace).reverse

/-- Character-wise lowercase (JS `toLowerCase` on the ASCII identifiers
modelled here). -/
def lowerStr (s : String) : String := String.mk (s.data.map Char.toLower)

/-- JS `String(s ?? "").trim()` (`norm` in the uptime jobs). -/
def jsNorm (s : String) : String := String.mk (trimChars s.data)

/-- `low` in the source: trim then lowercase. -/
def jsLow (s : String) : String := lowerStr (jsNorm s)

/-- Characters removed by the source's `clean` regex
`[​-‍﻿]` (zero-width characters / BOM). -/
def isZeroWidth (c : Char) : Bool :=
  (0x200B ≤ c.toNat && c.toNat ≤ 0x200D) || c.toNat = 0xFEFF

/-- `clean` in the source: NFKC-normalise (identity on the ASCII identifiers
modelled here), strip zero-width characters, trim. -/
def jsClean (s : String) : String :=
  String.mk (trimChars ((s.data).filter (fun c => !isZeroWidth c)))

/-- Character-list core of `tail`: the suffix after the last `'.'`
(the whole list when no dot occurs), mirroring
`i = lastIndexOf('.'); i >= 0 ? slice(i+1) : str`. -/
def tailAfterDot (cs : List Char) : List Char :=
  cs.foldl (fun acc c => if c = '.' then [] else acc ++ [c]) []

/-- `tail` of the uptime jobs: `norm` then suffix after the last dot. -/
def tailStr (s : String) : String := String.mk (tailAfterDot (jsNorm s).data)

/-- `head` of the MiningDutch job: `norm` then prefix before the first dot
(the whole string when no dot occurs). -/
def headStr (s : String) : String :=
  String.mk ((jsNorm s).data.takeWhile (fun c => c ≠ '.'))

/-- Leading-zero folding used by `workerKey` (F2Pool / Binance):
drop leading `'0'`s; an all-zero string folds to `"0"`. -/
def stripLeadingZeros (cs : List Char) : List Char :=
  match cs.dropWhile (fun c => c = '0') with
  | [] => ['0']
  | l => l

/-- `workerKey` in the F2Pool and Binance jobs: `clean`, lowercase, fold
leading zeros (`"001" ↦ "1"`, `"0" ↦ "0"`). -/
def workerKey (s : String) : String :=
  String.mk (stripLeadingZeros (lowerStr (jsClean s)).data)

/-- `splitAccountWorker`: split `account.worker` at the FIRST dot;
`indexOf('.') <= 0` (missing or leading dot) yields two empty strings. -/
def splitAccountWorker (s : String) : String × String :=
  let cs := (jsClean s).data
  let pre := cs.takeWhile (fun c => c ≠ '.')
  if pre.length = cs.length ∨ pre = [] then ("", "")
  else (String.mk pre, String.mk (cs.drop (pre.length + 1)))

/- ===================== miners table rows and SQL updates ===================== -/

/-- A row of the `miners` table, restricted to the columns the engine
mutates.  `none` models SQL `NULL`. -/
structure MinerRow where
  id : Nat
  status : Option String
  total_horas_online : Option ℚ
  deriving DecidableEq, Repr

/-- `lower(COALESCE(status, ''))` from the UPDATE guards. -/
def lowerCoalesce (s : Option String) : String := lowerStr (s.getD "")

/-- The maintenance guard `lower(COALESCE(status, '')) <> 'maintenance'`
(negated): the row is in maintenance. -/
def isMaintenance (s : Option String) : Bool := lowerCoalesce s = "maintenance"

/-- `UPDATE miners SET total_horas_online = COALESCE(total_horas_online,0) + 0.25
WHERE id = ANY(ids) AND lower(COALESCE(status,'')) <> 'maintenance'`,
as a transformer of one row.  Identical in all five jobs. -/
def applyHours (ids : List Nat) (r : MinerRow) : MinerRow :=
  if r.id ∈ ids ∧ ¬ isMaintenance r.status then
    { r with total_horas_online := some ((r.total_horas_online.getD 0) + 1/4) }
  else r

/-- `UPDATE miners SET status = newStatus WHERE id = ANY(ids)
AND status IS DISTINCT FROM newStatus AND lower(COALESCE(status,'')) <>
'maintenance'`, as a transformer of one row.  Identical in all five jobs. -/
def applyStatus (ids : List Nat) (newStatus : String) (r : MinerRow) : MinerRow :=
  if r.id ∈ ids ∧ r.status ≠ some newStatus ∧ ¬ isMaintenance r.status then
    { r with status := some newStatus }
  else r

/-- One group's database mutations in source order: hours increment, then
status→online, then status→offline. -/
def applyGroupMutations (hoursIds onlineIds offlineIds : List Nat) (r : MinerRow) : MinerRow :=
  applyStatus offlineIds "offline" (applyStatus onlineIds "online" (applyHours hoursIds r))

/- ===================== per-slot hour dedupe (Slot Coordinator) ===================== -/

/-- The process-local pair `lastSlot` / `updatedInSlot` kept by every job file. -/
structure SlotState where
  lastSlot : Option String
  updatedInSlot : List Nat
  deriving DecidableEq, Repr

/-- `beginSlot`: when the slot identifier advances, remember it and clear the
per-slot dedupe set; otherwise leave the state untouched. -/
def beginSlot (s : String) (st : SlotState) : SlotState :=
  if st.lastSlot = some s then st else { lastSlot := some s, updatedInSlot := [] }

/-- `dedupeForHours`: drop ids already credited in this slot, record the
survivors in the dedupe set. -/
def dedupeForHours (ids : List Nat) (st : SlotState) : List Nat × SlotState :=
  match ids with
  | [] => ([], st)
  | i :: rest =>
    if i ∈ st.updatedInSlot then dedupeForHours rest st
    else
      let r := dedupeForHours rest { st with updatedInSlot := i :: st.updatedInSlot }
      (i :: r.1, r.2)

/- ===================== MiningDutch uptime job ===================== -/

namespace MD

/-- `GRACE_MINUTES` in `src/jobs/uptimeMiningDutch.js`. -/
def GRACE_MINUTES : Nat := 60

/-- `OFFLINE_TOLERANCE_SLOTS` in `src/jobs/uptimeMiningDutch.js`. -/
def OFFLINE_TOLERANCE_SLOTS : Nat := 4

/-- A normalised Mining-Dutch worker observation (output of
`fetchMiningDutchWorkers`). -/
structure Worker where
  name : String
  hashrate : ℚ
  alive : ℚ
  status : String
  deriving DecidableEq, Repr

/-- A candidate MiningDutch miner row as selected by the job. -/
structure Miner where
  id : Nat
  worker_name : String
  status : Option String
  deriving DecidableEq, Repr

/-- `isOnlineFromWorker`: `alive > 0`, or `hashrate > 0`, or a positive
status label. -/
def isOnlineFromWorker (w : Worker) : Bool :=
  if w.alive > 0 then true
  else if w.hashrate > 0 then true
  else decide (jsLow w.status ∈ ["alive", "online", "active", "up", "working", "connected"])

/-- The job's Redis side-state: `uptime:lastOnline:miningdutch:<id>` (a slot
time, in minutes) and `uptime:offlineStreak:miningdutch:<id>` (an INCR
counter).  Association lists; the head entry for a key wins. -/
structure Redis where
  lastOnline : List (Nat × Int)
  streak : List (Nat × Nat)
  deriving DecidableEq, Repr

def getLastOnline (st : Redis) (i : Nat) : Option Int :=
  (st.lastOnline.find? (fun p => p.1 = i)).map (·.2)

def setLastOnline (i : Nat) (v : Int) (st : Redis) : Redis :=
  { st with lastOnline := (i, v) :: st.lastOnline.filter (fun p => p.1 ≠ i) }

def delLastOnline (i : Nat) (st : Redis) : Redis :=
  { st with lastOnline := st.lastOnline.filter (fun p => p.1 ≠ i) }

/-- A missing streak key reads as 0 (`redis.incr` starts at 1). -/
def getStreak (st : Redis) (i : Nat) : Nat :=
  ((st.streak.find? (fun p => p.1 = i)).map (·.2)).getD 0

def setStreak (i : Nat) (v : Nat) (st : Redis) : Redis :=
  { st with streak := (i, v) :: st.streak.filter (fun p => p.1 ≠ i) }

def delStreak (i : Nat) (st : Redis) : Redis :=
  { st with streak := st.streak.filter (fun p => p.1 ≠ i) }

/-- `minutesDiff` with both instants given in minutes: `|b − a|`. -/
def minutesDiff (a b : Int) : Nat := (b - a).natAbs

/-- `classifyErrorWithGrace` reduced to its decision: the miner is credited
for this slot iff its `lastOnline` marker exists and lies within
`GRACE_MINUTES` of the slot. -/
def graceCredited (st : Redis) (slot : Int) (i : Nat) : Bool :=
  match getLastOnline st i with
  | some t => minutesDiff t slot ≤ GRACE_MINUTES
  | none => false

/-- `markOnlineAndResetStreak`: store `lastOnline := slot` (TTL 7 d) and
delete the streak counter. -/
def markOnlineAndResetStreak (slot : Int) (i : Nat) (st : Redis) : Redis :=
  delStreak i (setLastOnline i slot st)

/-- `handleConfirmedApiOfflineForOnlineMiner`: INCR the streak; below
`OFFLINE_TOLERANCE_SLOTS` the miner is only credited hours (first result
component); at the threshold it is confirmed offline (second component) and
both markers are cleared. -/
def handleConfirmedApiOfflineForOnlineMiner (st : Redis) (i : Nat) : Bool × Bool × Redis :=
  let streak := getStreak st i + 1
  let st1 := setStreak i streak st
  if streak < OFFLINE_TOLERANCE_SLOTS then (true, false, st1)
  else (false, true, delLastOnline i (delStreak i st1))

/-- Association-list lookup used for the `byTail` maps (head entry wins). -/
def lookupA (m : List (String × Worker)) (k : String) : Option Worker :=
  (m.find? (fun p => p.1 = k)).map (·.2)

/-- Build the `byTail` map: key `low(tail(w.name) || w.name)`, skipping empty
keys; `Map.set` lets the later entry win, modelled by consing (head wins on
lookup). -/
def byTailMap (ws : List Worker) : List (String × Worker) :=
  ws.foldl
    (fun m w =>
      let keyTail := jsLow (if tailStr w.name = "" then w.name else tailStr w.name)
      if keyTail = "" then m else (keyTail, w) :: m)
    []

/-- Adapter outcome for one MiningDutch group: `fail` models both
`fetchMiningDutchWorkers` calls throwing; `ok ws retry` carries the first
call's workers and the optional suspicious-retry call's workers
(`retry = none`: the retry call threw). -/
inductive Outcome where
  | fail
  | ok (ws : List Worker) (retry : Option (List Worker))
  deriving DecidableEq, Repr

/-- Result of the first classification pass (step 2 of the job). -/
structure Phase1 where
  onl : List Nat
  susp : List Miner
  offc : List Miner
  noinfo : List Miner
  st : Redis

/-- First classification pass over the group's miners: a matching online
observation confirms online (and resets the streak); a matching offline
observation sends DB-online miners to `suspicious` and others to
`offlineCandidates`; an unmatched miner goes to `noInfo`. -/
def phase1 (slot : Int) (byTail : List (String × Worker)) :
    List Miner → Redis → Phase1
  | [], st => ⟨[], [], [], [], st⟩
  | m :: rest, st =>
    let t := jsLow (tailStr m.worker_name)
    let info := if t = "" then none else lookupA byTail t
    match info with
    | some w =>
      if isOnlineFromWorker w then
        let r := phase1 slot byTail rest (markOnlineAndResetStreak slot m.id st)
        { r with onl := m.id :: r.onl }
      else if jsLow (m.status.getD "") = "online" then
        let r := phase1 slot byTail rest st
        { r with susp := m :: r.susp }
      else
        let r := phase1 slot byTail rest st
        { r with offc := m :: r.offc }
    | none =>
      let r := phase1 slot byTail rest st
      { r with noinfo := m :: r.noinfo }

/-- The retry-call online check of step 3: `byTailRetry = none` (the retry
fetch threw) or a missing/offline observation answer `false`. -/
def retryOnline (byTailRetry : Option (List (String × Worker))) (m : Miner) : Bool :=
  match byTailRetry with
  | some bt =>
    let t := jsLow (tailStr m.worker_name)
    match (if t = "" then none else lookupA bt t) with
    | some w2 => isOnlineFromWorker w2
    | none => false
  | none => false

/-- Second-call pass over the `suspicious` miners (step 3): a retry
observation that is online confirms online; otherwise the tolerance counter
logic of `handleConfirmedApiOfflineForOnlineMiner` runs.  Returns
(onlineConfirmed, fallbackOnline, offlineConfirmed, redis). -/
def phase2 (slot : Int) (byTailRetry : Option (List (String × Worker))) :
    List Miner → Redis → List Nat × List Nat × List Nat × Redis
  | [], st => ([], [], [], st)
  | m :: rest, st =>
    if retryOnline byTailRetry m then
      let r := phase2 slot byTailRetry rest (markOnlineAndResetStreak slot m.id st)
      (m.id :: r.1, r.2.1, r.2.2.1, r.2.2.2)
    else
      let h := handleConfirmedApiOfflineForOnlineMiner st m.id
      let r := phase2 slot byTailRetry rest h.2.2
      (r.1, (if h.1 then [m.id] else []) ++ r.2.1, (if h.2.1 then [m.id] else []) ++ r.2.2.1,
        r.2.2.2)

/-- The three id sets a group contributes to the database mutations. -/
structure GroupResult where
  onlineConf : List Nat
  offlineConf : List Nat
  fallback : List Nat
  deriving DecidableEq, Repr

/-- One group of `runUptimeMiningDutchOnce` (steps 1–5): on total fetch
failure only GRACE billing applies; otherwise the two classification passes
run, offline candidates are confirmed directly, and unmatched miners get
GRACE billing only. -/
def processGroup (slot : Int) (list : List Miner) (out : Outcome) (st : Redis) :
    GroupResult × Redis :=
  match out with
  | .fail =>
    ({ onlineConf := [], offlineConf := [],
       fallback := (list.filter (fun m => graceCredited st slot m.id)).map (·.id) }, st)
  | .ok ws retry =>
    let p1 := phase1 slot (byTailMap ws) list st
    let p2 := phase2 slot (retry.map byTailMap) p1.susp p1.st
    let st2 := p2.2.2.2
    let fbNoInfo := (p1.noinfo.filter (fun m => graceCredited st2 slot m.id)).map (·.id)
    ({ onlineConf := p1.onl ++ p2.1,
       offlineConf := p2.2.2.1 ++ p1.offc.map (·.id),
       fallback := p2.2.1 ++ fbNoInfo }, st2)

end MD

/- ===================== LiteCoinPool uptime job ===================== -/

namespace LTC

/-- One entry of the LiteCoinPool `workers` response object. -/
structure WorkerInfo where
  connected : Bool
  hash_rate : ℚ
  deriving DecidableEq, Repr

/-- The pool's `workers` object: full worker name → info. -/
abbrev Workers := List (String × WorkerInfo)

/-- A candidate LiteCoinPool miner row. -/
structure Miner where
  id : Nat
  worker_name : String
  deriving DecidableEq, Repr

/-- The JSON body of a LiteCoinPool response: `workers` field present
(truthy) or not. -/
structure Body where
  workers : Option Workers
  deriving DecidableEq, Repr

/-- Outcome of `fetchLitecoinPoolWorkers`: only a transport-level throw is a
failure; any response that parses to nothing still yields an (empty) worker
map, mirroring `data && data.workers ? data.workers : {}`. -/
inductive FetchOutcome where
  | fail
  | ok (ws : Workers)
  deriving DecidableEq, Repr

/-- `fetchLitecoinPoolWorkers`: `transportThrow` models `fetch` rejecting;
`parsed` is the JSON body (`none`: `resp.json()` failed and the catch
returned `null`). -/
def fetchLitecoinPoolWorkers (transportThrow : Bool) (parsed : Option Body) : FetchOutcome :=
  if transportThrow then .fail
  else .ok (match parsed with
    | some b => b.workers.getD []
    | none => [])

/-- `workers?.[m.worker_name]` — exact-name property access. -/
def workersLookup (ws : Workers) (name : String) : Option WorkerInfo :=
  (ws.find? (fun p => p.1 = name)).map (·.2)

/-- The classification loop of `runUptimeLTCPoolOnce`: a miner is online iff
its exact `worker_name` appears with `connected === true`; a missing entry or
`connected=false` puts it in the offline list. -/
def classify (list : List Miner) (ws : Workers) : List Nat × List Nat :=
  match list with
  | [] => ([], [])
  | m :: rest =>
    let r := classify rest ws
    let apiOnline :=
      match workersLookup ws m.worker_name with
      | some info => info.connected
      | none => false
    if apiOnline then (m.id :: r.1, r.2) else (r.1, m.id :: r.2)

/-- One group of `runUptimeLTCPoolOnce`: a thrown fetch leaves both id lists
empty (the catch swallows the error); an `ok` response classifies every
miner.  Result: (onlineIdsRaw, offlineIdsRaw); the hours ids are the online
ids. -/
def groupIds (list : List Miner) (out : FetchOutcome) : List Nat × List Nat :=
  match out with
  | .fail => ([], [])
  | .ok ws => classify list ws

end LTC

/- ===================== ViaBTC uptime job ===================== -/

namespace Via

/-- A ViaBTC worker entry as normalised by `fetchViaBTCListOnce`. -/
structure Worker where
  worker_name : String
  worker_status : String
  hashrate_10min : ℚ
  deriving DecidableEq, Repr

def NEG_STATES : List String := ["unactive", "inactive", "offline", "down", "dead"]
def POS_STATES : List String := ["active", "online", "alive", "running", "up", "ok"]

/-- `isOnlineFrom`: positive hashrate wins; else negative labels force
offline, positive labels force online, anything else is offline. -/
def isOnlineFrom (w : Worker) : Bool :=
  if w.hashrate_10min > 0 then true
  else
    let ws := jsLow w.worker_status
    if ws ∈ NEG_STATES then false
    else decide (ws ∈ POS_STATES)

/-- A candidate ViaBTC miner row. -/
structure Miner where
  id : Nat
  worker_name : String
  deriving DecidableEq, Repr

/-- Parsed ViaBTC payload: envelope `{code, data:{data:[…]}}`;
`dataArr = none` models `data.data?.data` not being an array. -/
structure Payload where
  code : Int
  dataArr : Option (List Worker)
  deriving DecidableEq, Repr

/-- Outcome of one `fetchViaBTCListOnce` call chain (after retries). -/
inductive FetchOutcome where
  | fail
  | ok (ws : List Worker)
  deriving DecidableEq, Repr

/-- `fetchViaBTCListOnce`: HTTP error, unparseable body, logical
`code ≠ 0`, or a missing workers array all throw (fail). -/
def fetchViaBTCListOnce (transportThrow respOk : Bool) (parsed : Option Payload) : FetchOutcome :=
  if transportThrow then .fail
  else if ¬ respOk then .fail
  else
    match parsed with
    | none => .fail
    | some p =>
      if p.code ≠ 0 then .fail
      else match p.dataArr with
        | none => .fail
        | some ws => .ok ws

/-- Insertion-ordered multimap add (`tailToIds` construction). -/
def mmAdd (m : List (String × List Nat)) (k : String) (i : Nat) : List (String × List Nat) :=
  match m with
  | [] => [(k, [i])]
  | (k2, is) :: rest => if k2 = k then (k2, is ++ [i]) :: rest else (k2, is) :: mmAdd rest k i

def mmLookup (m : List (String × List Nat)) (k : String) : Option (List Nat) :=
  (m.find? (fun p => p.1 = k)).map (·.2)

/-- `tailToIds`: tail of each miner's `worker_name` → ids (skip empty tails). -/
def tailToIdsOf (list : List Miner) : List (String × List Nat) :=
  list.foldl
    (fun m mn =>
      let t := tailStr mn.worker_name
      if t = "" then m else mmAdd m t mn.id)
    []

/-- `Map.set` with in-place overwrite (the worker maps of both reads). -/
def mapSet (m : List (String × Worker)) (k : String) (w : Worker) : List (String × Worker) :=
  match m with
  | [] => [(k, w)]
  | (k2, w2) :: rest => if k2 = k then (k2, w) :: rest else (k2, w2) :: mapSet rest k w

def mapGet (m : List (String × Worker)) (k : String) : Option Worker :=
  (m.find? (fun p => p.1 = k)).map (·.2)

/-- Keep only workers whose tail is a wanted tail (`if (tailToIds.has(tw))`). -/
def workerMapOf (t2i : List (String × List Nat)) (ws : List Worker) : List (String × Worker) :=
  ws.foldl
    (fun m w =>
      let tw := tailStr w.worker_name
      if (mmLookup t2i tw).isSome then mapSet m tw w else m)
    []

/-- JS `Set.add` semantics on the online-id list: the same guarded push
feeds both `onlineIdsSet` and `onlineIdsForHoursRaw`, so one list models
both. -/
def addIds (onl : List Nat) (ids : List Nat) : List Nat :=
  ids.foldl (fun acc i => if i ∈ acc then acc else acc ++ [i]) onl

/-- The group's final id lists: `onlineIds` doubles as the hours-raw list. -/
structure GroupIds where
  onlineIds : List Nat
  offlineIds : List Nat
  deriving DecidableEq, Repr

/-- First pass over `tailsWanted`: an online observation collects the tail's
ids; an offline observation records the tail as an offline candidate; a
missing observation skips the tail entirely. -/
def pass1 (wm1 : List (String × Worker)) (t2i : List (String × List Nat)) :
    List String → List Nat × List String
  | [] => ([], [])
  | t :: rest =>
    let r := pass1 wm1 t2i rest
    match mapGet wm1 t with
    | none => r
    | some w1 =>
      if isOnlineFrom w1 then (addIds (mmLookup t2i t |>.getD []) r.1, r.2)
      else (r.1, t :: r.2)

/-- Second read over the offline-candidate tails: a worker online in the
second read rejoins the online set; present-and-offline in both reads is
confirmed offline; absent in the second read is left untouched. -/
def pass2 (wm2 : List (String × Worker)) (t2i : List (String × List Nat)) :
    List String → List Nat → List Nat × List Nat
  | [], onl => (onl, [])
  | t :: rest, onl =>
    let ids := (mmLookup t2i t).getD []
    match mapGet wm2 t with
    | none => pass2 wm2 t2i rest onl
    | some w2 =>
      if isOnlineFrom w2 then pass2 wm2 t2i rest (addIds onl ids)
      else
        let r := pass2 wm2 t2i rest onl
        (r.1, ids ++ r.2)

/-- One group of `runUptimeViaBTCOnce`: first read (fail ⇒ the group catch
leaves every list empty), then — only when offline candidates exist — a
second read; a failed second read marks nobody offline. -/
def processGroup (list : List Miner) (out1 out2 : FetchOutcome) : GroupIds :=
  match out1 with
  | .fail => ⟨[], []⟩
  | .ok ws1 =>
    let t2i := tailToIdsOf list
    let tailsWanted := t2i.map (·.1)
    let wm1 := workerMapOf t2i ws1
    let p1 := pass1 wm1 t2i tailsWanted
    if p1.2 = [] then ⟨p1.1, []⟩
    else
      match out2 with
      | .fail => ⟨p1.1, []⟩
      | .ok ws2 =>
        let wm2 := workerMapOf t2i ws2
        let p2 := pass2 wm2 t2i p1.2 p1.1
        ⟨p2.1, p2.2⟩

end Via

/- ===================== F2Pool uptime job ===================== -/

namespace F2

/-- A worker as produced by `normalizeV2Workers`:
`{ name, hr, statusCode, lastMs }`; `statusCode = none` models `NaN`. -/
structure Worker where
  name : String
  hr : ℚ
  statusCode : Option Int
  lastMs : Int
  deriving DecidableEq, Repr

/-- `normalizeV2Workers` keeps only entries with a nonempty cleaned name. -/
def normalizeV2Workers (l : List Worker) : List Worker :=
  l.filter (fun w => w.name ≠ "")

/-- Parsed F2Pool v2 payload: optional `code` plus the extracted workers
array (any of the four accepted envelope shapes). -/
structure Payload where
  code : Option Int
  arr : List Worker
  deriving DecidableEq, Repr

/-- Adapter outcome of `f2poolV2Workers`. -/
inductive Outcome where
  | fail (reason : String)
  | ok (ws : List Worker)
  deriving DecidableEq, Repr

/-- `f2poolV2Workers`: no token → fail; non-2xx HTTP throws inside `tryJSON`
(fail); HTTP 200 with logical `code ≠ 0` → fail; an unparseable or empty
workers list → `v2_empty` fail; otherwise Ok. -/
def f2poolV2Workers (tokenPresent httpOk : Bool) (parsed : Option Payload) : Outcome :=
  if ¬ tokenPresent then .fail "no_token"
  else if ¬ httpOk then .fail "http"
  else
    match parsed with
    | some p =>
      match p.code with
      | some c =>
        if c ≠ 0 then .fail ("v2_code_" ++ toString c)
        else
          let workers := normalizeV2Workers p.arr
          if workers = [] then .fail "v2_empty" else .ok workers
      | none =>
        let workers := normalizeV2Workers p.arr
        if workers = [] then .fail "v2_empty" else .ok workers
    | none => .fail "v2_empty"

/-- A candidate F2Pool miner after `splitAccountWorker` and filtering. -/
structure Miner where
  id : Nat
  account : String
  worker : String
  deriving DecidableEq, Repr

/-- `tail` in the F2Pool / Binance files is `clean`-based. -/
def tailOf (s : String) : String := String.mk (tailAfterDot (jsClean s).data)

/-- `suffixToIds`: normalised worker suffix → ids. -/
def suffixToIdsOf (list : List Miner) : List (String × List Nat) :=
  list.foldl
    (fun m mn =>
      let sfx := workerKey mn.worker
      if sfx = "" then m else Via.mmAdd m sfx mn.id)
    []

/-- The group id lists: status-online, hours (hr > 0 only), status-offline. -/
structure GroupIds where
  onlineIds : List Nat
  hoursIds : List Nat
  offlineIds : List Nat
  deriving DecidableEq, Repr

/-- One group of `runUptimeF2PoolOnce`: a failed adapter call skips the
group (`continue` — never mark offline without worker data); on Ok each
matching worker contributes: online iff `hr > 0` or `status == 0`; hours iff
`hr > 0`; offline iff `status == 1` and `hr == 0`. -/
def processGroup (list : List Miner) (out : Outcome) : GroupIds :=
  match out with
  | .fail _ => ⟨[], [], []⟩
  | .ok ws =>
    let s2i := suffixToIdsOf list
    ws.foldl
      (fun acc w =>
        let suf := workerKey (if tailOf w.name = "" then w.name else tailOf w.name)
        match Via.mmLookup s2i suf with
        | none => acc
        | some ids =>
          let hrOnline := w.hr > (0 : ℚ)
          let statusOnline := w.statusCode = some (0 : Int)
          let definitelyOffline := w.statusCode = some (1 : Int) ∧ ¬ hrOnline
          ⟨acc.onlineIds ++ (if hrOnline ∨ statusOnline then ids else []),
           acc.hoursIds ++ (if hrOnline then ids else []),
           acc.offlineIds ++ (if definitelyOffline then ids else [])⟩)
      ⟨[], [], []⟩

end F2

/- ===================== Binance uptime job ===================== -/

namespace Bin

/-- A Binance worker entry (`status`: 1 valid, 2 invalid, 3 no longer valid). -/
structure Worker where
  workerName : String
  status : Int
  hashRate : ℚ
  deriving DecidableEq, Repr

/-- `isOnlineBinance`: positive hashrate or `status == 1`. -/
def isOnlineBinance (w : Worker) : Bool :=
  if w.hashRate > 0 then true else w.status = 1

/-- A candidate Binance miner after `splitAccountWorker`, with nonempty
account / worker / algo. -/
structure Miner where
  id : Nat
  account : String
  worker : String
  deriving DecidableEq, Repr

/-- Parsed body of one worker-list page; `workerDatas = none` models a body
without the `data.workerDatas` array (including an unparseable body). -/
structure Payload where
  workerDatas : Option (List Worker)
  deriving DecidableEq, Repr

/-- Adapter outcome of `binanceListWorkers`. -/
inductive ListOutcome where
  | fail (reason : String)
  | ok (ws : List Worker)
  deriving DecidableEq, Repr

/-- `resp.ok`: HTTP status in the 2xx range. -/
def respOkStatus (status : Nat) : Bool := 200 ≤ status && status < 300

/-- `binanceListWorkers` (single page of the pagination loop): 451 →
geoblocked fail, 401/403 → auth fail, other non-2xx → http fail; a 2xx
response yields Ok with `data?.data?.workerDatas || []` — even when the body
is unparseable. -/
def binanceListWorkers (status : Nat) (parsed : Option Payload) : ListOutcome :=
  if status = 451 then .fail "geoblocked"
  else if status = 403 ∨ status = 401 then .fail "auth"
  else if ¬ respOkStatus status then .fail "http"
  else .ok (match parsed with
    | some p => p.workerDatas.getD []
    | none => [])

/-- `suffixToIds` via `workerKey` of the split worker suffix. -/
def suffixToIdsOf (list : List Miner) : List (String × List Nat) :=
  list.foldl
    (fun m mn =>
      let sfx := workerKey mn.worker
      if sfx = "" then m else Via.mmAdd m sfx mn.id)
    []

/-- The group id lists (hours ids are the online ids in this job). -/
structure GroupIds where
  onlineIds : List Nat
  offlineIds : List Nat
  deriving DecidableEq, Repr

/-- One group of `runUptimeBinanceOnce`: on adapter failure the group is
skipped (`continue`); on Ok, matching online workers collect their ids and
EVERY other miner of the group — matched offline or not matched at all —
lands in the offline list (`allIds.filter(id => !onlineSet.has(id))`). -/
def processGroup (list : List Miner) (out : ListOutcome) : GroupIds :=
  match out with
  | .fail _ => ⟨[], []⟩
  | .ok ws =>
    let s2i := suffixToIdsOf list
    let allIds := list.map (·.id)
    let onlineIdsRaw := ws.foldl
      (fun acc w =>
        let suf := workerKey (if F2.tailOf w.workerName = "" then w.workerName
                              else F2.tailOf w.workerName)
        match Via.mmLookup s2i suf with
        | none => acc
        | some ids => if isOnlineBinance w then acc ++ ids else acc)
      []
    let offlineIdsRaw := allIds.filter (fun i => i ∉ onlineIdsRaw)
    ⟨onlineIdsRaw, offlineIdsRaw⟩

end Bin

/- ===================== slot locks and per-job ticks ===================== -/

/-- The advisory-lock environment: the set of keys currently held in the
external key-value store. -/
structure LockEnv where
  held : List String
  deriving DecidableEq, Repr

/-- `redis.set(key, "1", { nx: true, ex: ttl })`: succeeds iff the key is
absent. -/
def redisSetNx (env : LockEnv) (key : String) : Bool × LockEnv :=
  if key ∈ env.held then (false, env) else (true, ⟨key :: env.held⟩)

/-- `uptime:<slot>:<pool>` — the slot-lock key format shared by the locked
jobs. -/
def slotLockKey (slot pool : String) : String := "uptime:" ++ slot ++ ":" ++ pool

/-- Lock TTLs (seconds) passed as `ex` by each job. -/
def F2_LOCK_EX : Nat := 14 * 60
def LTC_LOCK_EX : Nat := 14 * 60
def BIN_LOCK_EX : Nat := 14 * 60
def MD_LOCK_EX : Nat := 20 * 60

/-- `runUptimeF2PoolOnce` at tick granularity: acquire the slot lock; if not
acquired, return early with no group processed; otherwise process every
group. -/
def runUptimeF2PoolOnce (env : LockEnv) (slot : String)
    (groups : List (List F2.Miner × F2.Outcome)) :
    LockEnv × Option (List F2.GroupIds) :=
  let l := redisSetNx env (slotLockKey slot "f2pool")
  if l.1 then (l.2, some (groups.map (fun g => F2.processGroup g.1 g.2)))
  else (l.2, none)

/-- `runUptimeLTCPoolOnce` at tick granularity (lock key `…:ltcpool`). -/
def runUptimeLTCPoolOnce (env : LockEnv) (slot : String)
    (groups : List (List LTC.Miner × LTC.FetchOutcome)) :
    LockEnv × Option (List (List Nat × List Nat)) :=
  let l := redisSetNx env (slotLockKey slot "ltcpool")
  if l.1 then (l.2, some (groups.map (fun g => LTC.groupIds g.1 g.2)))
  else (l.2, none)

/-- `runUptimeBinanceOnce` at tick granularity: lock, then base selection
(`basePicked = false`: all bases unavailable/geoblocked → skipped with no
mutations), then the groups. -/
def runUptimeBinanceOnce (env : LockEnv) (slot : String) (basePicked : Bool)
    (groups : List (List Bin.Miner × Bin.ListOutcome)) :
    LockEnv × Option (List Bin.GroupIds) :=
  let l := redisSetNx env (slotLockKey slot "binance")
  if l.1 then
    if basePicked then (l.2, some (groups.map (fun g => Bin.processGroup g.1 g.2)))
    else (l.2, some [])
  else (l.2, none)

/-- Sequential group loop of the MiningDutch job, threading Redis state. -/
def mdRunGroups (slotMin : Int) :
    List (List MD.Miner × MD.Outcome) → MD.Redis → List MD.GroupResult × MD.Redis
  | [], st => ([], st)
  | g :: rest, st =>
    let r := MD.processGroup slotMin g.1 g.2 st
    let rr := mdRunGroups slotMin rest r.2
    (r.1 :: rr.1, rr.2)

/-- `runUptimeMiningDutchOnce` at tick granularity (lock key
`…:miningdutch`, TTL 20 min). -/
def runUptimeMiningDutchOnce (env : LockEnv) (slot : String) (slotMin : Int)
    (groups : List (List MD.Miner × MD.Outcome)) (st : MD.Redis) :
    LockEnv × Option (List MD.GroupResult × MD.Redis) :=
  let l := redisSetNx env (slotLockKey slot "miningdutch")
  if l.1 then (l.2, some (mdRunGroups slotMin groups st))
  else (l.2, none)

/-- `runUptimeViaBTCOnce` at tick granularity: the source acquires NO slot
lock and never consults the key-value store — the tick always proceeds and
the lock environment is untouched. -/
def runUptimeViaBTCOnce (env : LockEnv) (_slot : String)
    (groups : List (List Via.Miner × Via.FetchOutcome × Via.FetchOutcome)) :
    LockEnv × Option (List Via.GroupIds) :=
  (env, some (groups.map (fun g => Via.processGroup g.1 g.2.1 g.2.2)))

/- ===================== read-path status service ===================== -/

namespace Svc

/-- `CACHE_TTL_MS = 30 * 1000` in `src/status-service.js`. -/
def CACHE_TTL_MS : Int := 30 * 1000

/-- The uniform observation projection returned by the read path
(`power`/`watts` are constant `null` in the source and omitted here). -/
structure Data where
  id : String
  worker_status : String
  hashrate_10min : ℚ
  worker_found : Bool
  source : Option String
  error : Option String
  deriving DecidableEq, Repr

/-- A `miners` row as selected by the status service. -/
structure Rec where
  id : String
  api_key : Option String
  secret_key : Option String
  coin : Option String
  pool : Option String
  worker_name : Option String
  status : Option String
  deriving DecidableEq, Repr

/-- `tail` of the status service: trim, LOWERCASE, then suffix after the
last dot. -/
def svcTail (name : String) : String :=
  String.mk (tailAfterDot (lowerStr (jsNorm name)).data)

/-- `tailKey`: `tail` with leading zeros folded (`"" ↦ "0"`). -/
def svcTailKey (name : String) : String :=
  String.mk (stripLeadingZeros (svcTail name).data)

def NEG_LABELS : List String :=
  ["unactive", "inactive", "offline", "down", "dead", "parado", "desligado", "inativa"]

def POS_LABELS : List String :=
  ["active", "online", "alive", "running", "up", "ok", "ativo", "ligado", "ativa"]

/-- `normalizeStatus`: negative labels → offline, positive → online,
anything else → offline. -/
def normalizeStatus (v : String) : String :=
  let s := lowerStr (jsNorm v)
  if s ∈ NEG_LABELS then "offline"
  else if s ∈ POS_LABELS then "online"
  else "offline"

/-- A normalised worker of the read path. -/
structure SvcWorker where
  worker_name : String
  worker_status : String
  hashrate_10min : ℚ
  deriving DecidableEq, Repr

/-- Abstraction of one pool branch of `fetchMinerStatusNormalized`: either a
branch-level error (`viabtc_error`, `binance_unavailable`, …) or the
normalised worker list the branch produced.  Reaching either constructor
required pool HTTP traffic. -/
inductive PoolOutcome where
  | err (code : String)
  | workers (ws : List SvcWorker)
  deriving DecidableEq, Repr

/-- The two response shapes of `fetchMinerStatusNormalized`: a bare
`{ id, error }` object, or a full projection. -/
inductive Result where
  | errOnly (id : String) (error : String)
  | data (d : Data)
  deriving DecidableEq, Repr

/-- The projection returned for a miner in maintenance. -/
def maintData (idStr : String) : Data :=
  { id := idStr, worker_status := "maintenance", hashrate_10min := 0,
    worker_found := false, source := none, error := none }

/-- The pools `fetchMinerStatusNormalized` dispatches on (lower-cased). -/
def SUPPORTED_POOLS : List String :=
  ["viabtc", "litecoinpool", "binance", "f2pool", "miningdutch"]

/-- The core of `fetchMinerStatusNormalized` once the row is loaded: the
maintenance early-return, the `no_worker_name` check, the pool dispatch
(collapsed over the five pools — `poolOutcome` stands for the branch's HTTP
and parsing work) and the final tail / tailKey match.  The boolean result
records whether any pool HTTP request was issued. -/
def fetchStatusCore (idStr : String) (rec : Rec) (poolOutcome : PoolOutcome) :
    Result × Bool :=
  let dbStatus := lowerStr (jsNorm (rec.status.getD ""))
  if dbStatus = "maintenance" then (.data (maintData idStr), false)
  else
    let worker_name_db := rec.worker_name.getD ""
    let expectedTail := svcTail worker_name_db
    if expectedTail = "" then (.errOnly idStr "no_worker_name", false)
    else
      let poolLower := lowerStr (jsNorm (rec.pool.getD ""))
      if poolLower ∈ SUPPORTED_POOLS then
        match poolOutcome with
        | .err c => (.errOnly idStr c, true)
        | .workers ws =>
          let expectedKey := svcTailKey worker_name_db
          let my :=
            match ws.find? (fun w => svcTail w.worker_name = expectedTail) with
            | some w => some w
            | none => ws.find? (fun w => svcTailKey w.worker_name = expectedKey)
          match my with
          | some w =>
            (.data { id := idStr, worker_status := normalizeStatus w.worker_status,
                     hashrate_10min := w.hashrate_10min, worker_found := true,
                     source := some poolLower, error := none }, true)
          | none =>
            (.data { id := idStr, worker_status := "offline", hashrate_10min := 0,
                     worker_found := false, source := some poolLower, error := none }, true)
      else (.errOnly idStr "unsupported_pool", false)

/- ---------- batch endpoint ---------- -/

structure CacheEntry where
  data : Data
  ts : Int
  deriving DecidableEq, Repr

/-- The process-local `statusCache` map (head entry wins on lookup). -/
abbrev Cache := List (String × CacheEntry)

def cacheGet (c : Cache) (id : String) : Option CacheEntry :=
  (c.find? (fun p => p.1 = id)).map (·.2)

/-- `statusCache.set` (the freshest write shadows older entries). -/
def cacheSet (c : Cache) (id : String) (e : CacheEntry) : Cache := (id, e) :: c

/-- The cache invariant the service maintains: every entry's stored
projection carries the id it is cached under (`statusCache.set(String(id),
{data})` with `data.id = String(id)`). -/
def CacheOk (c : Cache) : Prop := ∀ p ∈ c, p.2.data.id = p.1

/-- `c && now - c.ts < CACHE_TTL_MS`. -/
def fresh (c : Cache) (id : String) (now : Int) : Bool :=
  match cacheGet c id with
  | some e => now - e.ts < CACHE_TTL_MS
  | none => false

/-- The per-id fallback object used by the batch endpoint. -/
def fallbackEntry (id : String) (errorCode : String) : Data :=
  { id := id, worker_status := "offline", hashrate_10min := 0,
    worker_found := false, source := none, error := some errorCode }

/-- Lookup in a JS `Map` built from an entry list (later entries overwrite
earlier ones). -/
def lastFind (l : List Data) (id : String) : Option Data :=
  (l.reverse).find? (fun o => o.id = id)

/-- `new Map(rows…)` lookup for the preloaded miner rows. -/
def recFor (rows : List (String × Rec)) (id : String) : Option Rec :=
  ((rows.reverse).find? (fun p => p.1 = id)).map (·.2)

/-- What one call of `getMinersStatusMany` produces: the JSON response, the
updated cache, and the ids for which `fetchMinerStatusNormalized` (and hence
the pool adapters) ran. -/
structure BatchResult where
  response : List Data
  cache : Cache
  fetched : List String
  deriving Repr

/-- The `out` list of the batch endpoint: the cached data of every fresh id,
in request order. -/
def outOf (ids : List String) (cache : Cache) (now : Int) : List Data :=
  (ids.filter (fun id => fresh cache id now)).filterMap
    (fun id => (cacheGet cache id).map (·.data))

/-- The `toFetch` list of the batch endpoint: the ids whose cache entry is
missing or stale. -/
def toFetchOf (ids : List String) (cache : Cache) (now : Int) : List String :=
  ids.filter (fun id => !(fresh cache id now))

/-- `getMinersStatusMany` (deterministic model of the bounded-concurrency
queue: each queued id is fetched exactly once and the response is assembled
by id, so worker interleaving does not affect the result): consult the cache
per id; if everything was fresh answer from cache alone; otherwise load the
rows (a DB failure produces the per-id offline fallback, keeps the cache and
calls no adapter) and fetch the misses, caching each result at `now`. -/
def getMinersStatusMany (ids : List String) (now : Int) (cache : Cache)
    (db : Except String (List (String × Rec)))
    (fetchOne : String → Option Rec → Data) : BatchResult :=
  let out := outOf ids cache now
  let toFetch := toFetchOf ids cache now
  if toFetch = [] then
    let ordered := ids.map (fun id =>
      match lastFind out id with
      | some o => o
      | none => fallbackEntry id "no_cached_data")
    ⟨ordered, cache, []⟩
  else
    match db with
    | .error errCode =>
      let ordered := ids.map (fun id =>
        match lastFind out id with
        | some o => o
        | none => fallbackEntry id errCode)
      ⟨ordered, cache, []⟩
    | .ok rows =>
      let fetchedPairs := toFetch.map (fun id => (id, fetchOne id (recFor rows id)))
      let outBatch := fetchedPairs.map (·.2)
      let cache2 := fetchedPairs.foldl (fun c p => cacheSet c p.1 ⟨p.2, now⟩) cache
      let ordered := ids.map (fun id =>
        match lastFind (out ++ outBatch) id with
        | some o => o
        | none => fallbackEntry id "no_data")
      ⟨ordered, cache2, toFetch⟩

end Svc

/- ===================== MiningDutch fetch loop (adapter outcome) ===================== -/

namespace MD

/-- A worker object as produced by `parseWorkersPayload`. -/
structure RawWorker where
  name : String
  username : String
  hashrate : ℚ
  alive : ℚ
  status : String
  deriving DecidableEq, Repr

/-- The final normalisation applied by `fetchMiningDutchWorkers` before
returning: `name = norm(w.name || w.username)`,
`status = norm(w.status || (alive > 0 ? "alive" : ""))`. -/
def normalizeFetched (l : List RawWorker) : List Worker :=
  l.map (fun w =>
    { name := jsNorm (if w.name = "" then w.username else w.name),
      hashrate := w.hashrate,
      alive := w.alive,
      status := jsNorm (if w.status = "" then (if w.alive > (0 : ℚ) then "alive" else "")
                        else w.status) })

/-- What one candidate URL of `fetchMiningDutchWorkers` yielded:
a non-2xx response (`continue`), an unparseable body or unexpected schema
(`parseWorkersPayload` returned `null`; `continue`), or a parsed worker
list. -/
inductive FetchResp where
  | httpErr
  | schemaBad
  | workers (ws : List RawWorker)
  deriving DecidableEq, Repr

/-- Result of the whole URL loop. -/
inductive FetchResult where
  | fail
  | ok (ws : List Worker)
  deriving DecidableEq, Repr

/-- `fetchMiningDutchWorkers`: walk the candidate URLs; HTTP errors and
schema failures fall through to the next URL; the first parsed list is
normalised and returned; an exhausted loop throws (fail). -/
def fetchMiningDutchWorkers : List FetchResp → FetchResult
  | [] => .fail
  | .httpErr :: rest => fetchMiningDutchWorkers rest
  | .schemaBad :: rest => fetchMiningDutchWorkers rest
  | .workers ws :: _ => .ok (normalizeFetched ws)

end MD

/- ===================== sequences of ticks over one row ===================== -/

/-- Fold a sequence of (hours, status-online, status-offline) mutation id
lists over one row — the row's view of any number of groups and ticks. -/
def applyTicks (ticks : List (List Nat × List Nat × List Nat)) (r : MinerRow) : MinerRow :=
  ticks.foldl (fun row t => applyGroupMutations t.1 t.2.1 t.2.2 row) r

/- ===================== spec-modelled comparison definition ===================== -/

/-- Modelled from the spec: the API-failure-branch billing condition claimed
in §4.6 step 6 — credited iff `lastOnline` exists and lies within 30 minutes
of the slot OR the stored status is `online`.  (The source job in
`src/jobs/uptimeMiningDutch.js` is compared against this.) -/
def specGraceCredited (st : MD.Redis) (slot : Int) (m : MD.Miner) : Bool :=
  (match MD.getLastOnline st m.id with
   | some t => MD.minutesDiff t slot ≤ 30
   | none => false) || (jsLow (m.status.getD "") = "online")

/- ===================== theorems ===================== -/

/-- C4: a miner whose stored status folds (case-insensitively) to
`maintenance` is never mutated: neither the hours increment nor either
status update of any group of any job changes its row, whatever id lists
the adapter outcomes produced. -/
theorem c4_maintenance_sticky (hoursIds onlineIds offlineIds : List Nat) (r : MinerRow)
    (h : lowerCoalesce r.status = "maintenance") :
    applyGroupMutations hoursIds onlineIds offlineIds r = r := by
  have hm : isMaintenance r.status = true := by simp [isMaintenance, h]
  simp [applyGroupMutations, applyHours, applyStatus, hm]

/-- Witness for C4 at a concrete row (`status = "Maintenance"`, mixed case,
targeted by all three id lists). -/
theorem c4_maintenance_sticky_witness :
    lowerCoalesce (some "Maintenance") = "maintenance" ∧
    applyGroupMutations [7] [7] [7] ⟨7, some "Maintenance", some 2⟩ =
      ⟨7, some "Maintenance", some 2⟩ :=
  ⟨by decide, c4_maintenance_sticky [7] [7] [7] ⟨7, some "Maintenance", some 2⟩ (by decide)⟩

/-- C2: in every one of the five jobs, a group whose adapter call fails
(transport, HTTP/logical, auth or geoblock) contributes an empty
status-offline id list, and an empty id list leaves every row's status
untouched — no status-offline mutation is emitted for that group's slot. -/
theorem c2_adapter_fail_no_status_offline :
    (∀ (list : List F2.Miner) (reason : String),
        (F2.processGroup list (.fail reason)).offlineIds = []) ∧
    (∀ (list : List Bin.Miner) (reason : String),
        (Bin.processGroup list (.fail reason)).offlineIds = []) ∧
    (∀ (slotMin : Int) (list : List MD.Miner) (st : MD.Redis),
        ((MD.processGroup slotMin list .fail st).1).offlineConf = []) ∧
    (∀ list : List LTC.Miner, (LTC.groupIds list .fail).2 = []) ∧
    (∀ (list : List Via.Miner) (out2 : Via.FetchOutcome),
        (Via.processGroup list .fail out2).offlineIds = []) ∧
    (∀ r : MinerRow, applyStatus [] "offline" r = r) := by
  refine ⟨fun _ _ => rfl, fun _ _ => rfl, fun _ _ _ => rfl, fun _ => rfl, fun _ _ => rfl, ?_⟩
  intro r
  simp [applyStatus]

/-- C10: a miner whose stored status trims and lowercases to `maintenance`
gets the fixed projection `{worker_status: "maintenance", hashrate_10min: 0,
worker_found: false}` from the read path, and no pool branch (hence no pool
HTTP request) runs — regardless of pool, credentials or worker name. -/
theorem c10_maintenance_read_path (idStr : String) (rec : Svc.Rec) (po : Svc.PoolOutcome)
    (h : lowerStr (jsNorm (rec.status.getD "")) = "maintenance") :
    Svc.fetchStatusCore idStr rec po =
      (.data { id := idStr, worker_status := "maintenance", hashrate_10min := 0,
               worker_found := false, source := none, error := none }, false) := by
  simp [Svc.fetchStatusCore, Svc.maintData, h]

/-- Witness for C10: a ViaBTC miner with full credentials and worker name
whose status is `" MAINTENANCE "`. -/
theorem c10_maintenance_read_path_witness :
    lowerStr (jsNorm (((some " MAINTENANCE ") : Option String).getD "")) = "maintenance" ∧
    Svc.fetchStatusCore "7"
        ⟨"7", some "k", some "s", some "BTC", some "ViaBTC", some "acct.w1", some " MAINTENANCE "⟩
        (.workers [⟨"acct.w1", "active", 50⟩]) =
      (.data { id := "7", worker_status := "maintenance", hashrate_10min := 0,
               worker_found := false, source := none, error := none }, false) :=
  ⟨by decide,
   c10_maintenance_read_path "7"
     ⟨"7", some "k", some "s", some "BTC", some "ViaBTC", some "acct.w1", some " MAINTENANCE "⟩
     (.workers [⟨"acct.w1", "active", 50⟩]) (by decide)⟩

/-- C1 counterexample: in the LiteCoinPool job a single offline observation
(`connected: false`) in a single slot, delivered by a live adapter `Ok`
response, immediately puts the miner in the offline list, and applying that
slot's mutations to a row that is currently `online` flips it to `offline` —
the claim says this can never happen in one slot. -/
theorem c1_counterexample :
    LTC.groupIds [⟨1, "w1"⟩] (.ok [("w1", ⟨false, 0⟩)]) = ([], [1]) ∧
    applyGroupMutations [] [] [1] ⟨1, some "online", some 0⟩ =
      ⟨1, some "offline", some 0⟩ := by
  constructor
  · rfl
  · decide

/-- C3 counterexample: in the Binance job a miner with NO matching
observation in an `Ok` worker list is placed in the offline list (the job
computes `offline = allIds \ online`), and the resulting mutation flips an
`online` row to `offline` — the claim says an unmatched miner's status is
left unchanged. -/
theorem c3_counterexample :
    (Bin.processGroup [⟨1, "acct", "w1"⟩] (.ok [⟨"other", 1, 5⟩])).offlineIds = [1] ∧
    applyGroupMutations [] [] [1] ⟨1, some "online", some 0⟩ =
      ⟨1, some "offline", some 0⟩ := by
  constructor
  · decide
  · decide

/-- C7 counterexample: the LiteCoinPool adapter answers an empty `Ok` map —
not `Fail` — when the payload is unparseable (`resp.json()` fell back to
`null`), and the Binance worker-list adapter answers `Ok []` when a 2xx
response body is unparseable; the claim says every adapter returns `Fail`
in these cases. -/
theorem c7_counterexample :
    LTC.fetchLitecoinPoolWorkers false none = .ok [] ∧
    Bin.binanceListWorkers 200 none = .ok [] := by
  exact ⟨rfl, rfl⟩

/-- C8 counterexample: the ViaBTC tick acquires no slot lock — even while
another instance holds `uptime:<slot>:viabtc`, the tick proceeds (processes
its groups) and leaves the lock store untouched; the claim says all five
jobs return early when the lock is not acquired. -/
theorem c8_counterexample :
    runUptimeViaBTCOnce ⟨[slotLockKey "2026-02-03T10:00:00.000Z" "viabtc"]⟩
        "2026-02-03T10:00:00.000Z" [([⟨1, "a.w1"⟩], .ok [], .fail)] =
      (⟨[slotLockKey "2026-02-03T10:00:00.000Z" "viabtc"]⟩, some [⟨[], []⟩]) := by
  rfl

/-- In the MiningDutch job, a stored-`online` miner lands in the confirmed
offline list of a live (`Ok`) slot only when the offline-streak counter,
incremented this slot, reaches `OFFLINE_TOLERANCE_SLOTS`. -/
theorem md_offline_needs_streak (slotMin : Int) (m : MD.Miner) (st : MD.Redis)
    (ws : List MD.Worker) (retry : Option (List MD.Worker))
    (hOnline : jsLow (m.status.getD "") = "online")
    (hMem : m.id ∈ ((MD.processGroup slotMin [m] (.ok ws retry) st).1).offlineConf) :
    MD.OFFLINE_TOLERANCE_SLOTS ≤ MD.getStreak st m.id + 1 := by
  unfold MD.processGroup at hMem
  simp only [MD.phase1, MD.phase2] at hMem
  split at hMem
  next w heq =>
    by_cases hw : MD.isOnlineFromWorker w
    · simp [hw, MD.phase2] at hMem
    · simp only [hw, Bool.false_eq_true, if_false, hOnline, if_true] at hMem
      simp only [MD.phase2] at hMem
      by_cases hr : MD.retryOnline (Option.map MD.byTailMap retry) m
      · simp [hr, MD.phase2] at hMem
      · by_cases hs : MD.getStreak st m.id + 1 < MD.OFFLINE_TOLERANCE_SLOTS
        · simp [hr, hs, MD.handleConfirmedApiOfflineForOnlineMiner, MD.phase2] at hMem
        · omega
  next heq =>
    simp [MD.phase2] at hMem

/-- C1 (amended): only the MiningDutch job defers status→offline for a
stored-`online` miner — the mutation needs the persisted offline-streak
counter to reach `OFFLINE_TOLERANCE_SLOTS = 4` (so a first/single offline
observation never emits it there); in the LiteCoinPool job (and likewise
F2Pool / Binance / ViaBTC) a status→offline mutation can be emitted from a
single slot's observations, even for a stored-`online` miner. -/
theorem c1_offline_two_slot_confirmation :
    (∀ (slotMin : Int) (m : MD.Miner) (st : MD.Redis)
        (ws : List MD.Worker) (retry : Option (List MD.Worker)),
        jsLow (m.status.getD "") = "online" →
        m.id ∈ ((MD.processGroup slotMin [m] (.ok ws retry) st).1).offlineConf →
        MD.OFFLINE_TOLERANCE_SLOTS ≤ MD.getStreak st m.id + 1) ∧
    (∀ (slotMin : Int) (m : MD.Miner) (st : MD.Redis)
        (ws : List MD.Worker) (retry : Option (List MD.Worker)),
        jsLow (m.status.getD "") = "online" →
        MD.getStreak st m.id = 0 →
        m.id ∉ ((MD.processGroup slotMin [m] (.ok ws retry) st).1).offlineConf) ∧
    (LTC.groupIds [⟨1, "w1"⟩] (.ok [("w1", ⟨false, 0⟩)]) = ([], [1]) ∧
     applyGroupMutations [] [] [1] ⟨1, some "online", some 0⟩ =
       ⟨1, some "offline", some 0⟩) := by
  refine ⟨md_offline_needs_streak, ?_, rfl, by decide⟩
  intro slotMin m st ws retry hOnline hz hMem
  have h4 : MD.OFFLINE_TOLERANCE_SLOTS = 4 := rfl
  have := md_offline_needs_streak slotMin m st ws retry hOnline hMem
  omega

/-- Witness for C1 (amended), applying the single-observation part at a
concrete stored-`online` miner with no prior streak: no status→offline. -/
theorem c1_offline_two_slot_confirmation_witness :
    jsLow (((some "online") : Option String).getD "") = "online" ∧
    MD.getStreak ⟨[], []⟩ 1 = 0 ∧
    1 ∉ ((MD.processGroup 0 [⟨1, "a.w1", some "online"⟩]
            (.ok [⟨"x.w1", 0, 0, "dead"⟩] none) ⟨[], []⟩).1).offlineConf :=
  ⟨by decide, rfl,
   c1_offline_two_slot_confirmation.2.1 0 ⟨1, "a.w1", some "online"⟩ ⟨[], []⟩
     [⟨"x.w1", 0, 0, "dead"⟩] none (by decide) rfl⟩

/-- A fold whose step leaves the accumulator unchanged on every element of
the list returns its initial accumulator. -/
theorem foldl_fixed {α β : Type} (f : β → α → β) (l : List α) (init : β)
    (h : ∀ a ∈ l, ∀ b, f b a = b) : l.foldl f init = init := by
  induction l generalizing init with
  | nil => rfl
  | cons a t ih =>
    rw [List.foldl_cons, h a (List.mem_cons_self a t)]
    exact ih init (fun a2 ha2 b => h a2 (List.mem_cons_of_mem a ha2) b)

/-- The ViaBTC first pass over an empty worker map touches nothing. -/
theorem via_pass1_empty (t2i : List (String × List Nat)) (ts : List String) :
    Via.pass1 [] t2i ts = ([], []) := by
  induction ts with
  | nil => rfl
  | cons t rest ih => simp [Via.pass1, Via.mapGet, ih]

/-- A ViaBTC worker map built from workers whose tails are all unwanted is
empty. -/
theorem via_workerMapOf_empty (t2i : List (String × List Nat)) (ws : List Via.Worker)
    (h : ∀ w ∈ ws, Via.mmLookup t2i (tailStr w.worker_name) = none) :
    Via.workerMapOf t2i ws = [] := by
  unfold Via.workerMapOf
  apply foldl_fixed
  intro w hw b
  simp [h w hw]

/-- C3 (amended): a miner with no matching observation in an `Ok` response
is treated as inconclusive only by the MiningDutch job (GRACE billing at
most, no status ids) — and is left entirely untouched by the ViaBTC and
F2Pool jobs; but the Binance job marks such a miner offline, and the
LiteCoinPool job likewise classifies a miner with no matching entry as
offline. -/
theorem c3_unmatched_miner :
    (∀ (slotMin : Int) (m : MD.Miner) (st : MD.Redis) (ws : List MD.Worker)
        (retry : Option (List MD.Worker)),
        (if jsLow (tailStr m.worker_name) = "" then none
         else MD.lookupA (MD.byTailMap ws) (jsLow (tailStr m.worker_name))) = none →
        MD.processGroup slotMin [m] (.ok ws retry) st =
          ({ onlineConf := [], offlineConf := [],
             fallback := if MD.graceCredited st slotMin m.id then [m.id] else [] }, st)) ∧
    (∀ (m : Via.Miner) (ws1 : List Via.Worker) (out2 : Via.FetchOutcome),
        (∀ w ∈ ws1, tailStr w.worker_name ≠ tailStr m.worker_name) →
        Via.processGroup [m] (.ok ws1) out2 = ⟨[], []⟩) ∧
    (∀ (m : F2.Miner) (ws : List F2.Worker),
        (∀ w ∈ ws, workerKey (if F2.tailOf w.name = "" then w.name else F2.tailOf w.name) ≠
            workerKey m.worker) →
        F2.processGroup [m] (.ok ws) = ⟨[], [], []⟩) ∧
    (∀ (m : Bin.Miner) (ws : List Bin.Worker),
        (∀ w ∈ ws, workerKey (if F2.tailOf w.workerName = "" then w.workerName
                              else F2.tailOf w.workerName) ≠ workerKey m.worker) →
        Bin.processGroup [m] (.ok ws) = ⟨[], [m.id]⟩) ∧
    (∀ (m : LTC.Miner) (ws : LTC.Workers),
        LTC.workersLookup ws m.worker_name = none →
        LTC.classify [m] ws = ([], [m.id])) := by
  refine ⟨?_, ?_, ?_, ?_, ?_⟩
  · intro slotMin m st ws retry hm
    unfold MD.processGroup
    simp only [MD.phase1, hm, MD.phase2]
    rcases hg : MD.graceCredited st slotMin m.id <;> simp [List.filter, hg]
  · intro m ws1 out2 hv
    unfold Via.processGroup
    by_cases ht : tailStr m.worker_name = ""
    · simp only [Via.tailToIdsOf, List.foldl_cons, List.foldl_nil, ht, if_true]
      rfl
    · simp only [Via.tailToIdsOf, List.foldl_cons, List.foldl_nil, ht, if_false, Via.mmAdd]
      rw [via_workerMapOf_empty _ ws1 ?_, via_pass1_empty]
      · rfl
      · intro w hw
        simp [Via.mmLookup, List.find?, Ne.symm (hv w hw)]
  · intro m ws hf
    unfold F2.processGroup
    apply foldl_fixed
    intro w hw b
    have hl : Via.mmLookup (F2.suffixToIdsOf [m])
        (workerKey (if F2.tailOf w.name = "" then w.name else F2.tailOf w.name)) = none := by
      simp only [F2.suffixToIdsOf, List.foldl_cons, List.foldl_nil]
      by_cases hk : workerKey m.worker = ""
      · simp [hk, Via.mmLookup]
      · simp [hk, Via.mmAdd, Via.mmLookup, List.find?, Ne.symm (hf w hw)]
    simp [hl]
  · intro m ws hb
    unfold Bin.processGroup
    have honl : ws.foldl
        (fun acc w =>
          let suf := workerKey (if F2.tailOf w.workerName = "" then w.workerName
                                else F2.tailOf w.workerName)
          match Via.mmLookup (Bin.suffixToIdsOf [m]) suf with
          | none => acc
          | some ids => if Bin.isOnlineBinance w then acc ++ ids else acc) [] = [] := by
      apply foldl_fixed
      intro w hw b
      have hl : Via.mmLookup (Bin.suffixToIdsOf [m])
          (workerKey (if F2.tailOf w.workerName = "" then w.workerName
                      else F2.tailOf w.workerName)) = none := by
        simp only [Bin.suffixToIdsOf, List.foldl_cons, List.foldl_nil]
        by_cases hk : workerKey m.worker = ""
        · simp [hk, Via.mmLookup]
        · simp [hk, Via.mmAdd, Via.mmLookup, List.find?, Ne.symm (hb w hw)]
      simp [hl]
    simp [honl]
  · intro m ws hl
    simp [LTC.classify, hl]

/-- Witness for C3 (amended): the five per-job conclusions at concrete
unmatched miners (empty `Ok` worker lists). -/
theorem c3_unmatched_miner_witness :
    MD.processGroup 0 [⟨1, "a.w1", some "x"⟩] (.ok [] none) ⟨[], []⟩ =
      ({ onlineConf := [], offlineConf := [], fallback := [] }, (⟨[], []⟩ : MD.Redis)) ∧
    Via.processGroup [⟨1, "a.w1"⟩] (.ok []) .fail = ⟨[], []⟩ ∧
    F2.processGroup [⟨1, "acct", "w1"⟩] (.ok []) = ⟨[], [], []⟩ ∧
    Bin.processGroup [⟨1, "acct", "w1"⟩] (.ok []) = ⟨[], [1]⟩ ∧
    LTC.classify [⟨1, "w1"⟩] [] = ([], [1]) :=
  ⟨c3_unmatched_miner.1 0 ⟨1, "a.w1", some "x"⟩ ⟨[], []⟩ [] none (by decide),
   c3_unmatched_miner.2.1 ⟨1, "a.w1"⟩ [] .fail (by simp),
   c3_unmatched_miner.2.2.1 ⟨1, "acct", "w1"⟩ [] (by simp),
   c3_unmatched_miner.2.2.2.1 ⟨1, "acct", "w1"⟩ [] (by simp),
   c3_unmatched_miner.2.2.2.2 ⟨1, "w1"⟩ [] rfl⟩

/-- Status updates never touch the hours column. -/
theorem applyStatus_total (ids : List Nat) (s : String) (r : MinerRow) :
    (applyStatus ids s r).total_horas_online = r.total_horas_online := by
  unfold applyStatus
  split_ifs <;> rfl

/-- The hours update credits exactly +0.25 to a targeted, non-maintenance
row and nothing otherwise. -/
theorem applyHours_credit (ids : List Nat) (r : MinerRow) :
    (applyHours ids r).total_horas_online.getD 0 =
      r.total_horas_online.getD 0 +
        (if r.id ∈ ids ∧ ¬ isMaintenance r.status then (1 : ℚ)/4 else 0) := by
  unfold applyHours
  split_ifs <;> simp

/-- One group's mutations never decrease the (coalesced) hours counter. -/
theorem tick_total_mono (hids onIds offIds : List Nat) (r : MinerRow) :
    r.total_horas_online.getD 0 ≤
      (applyGroupMutations hids onIds offIds r).total_horas_online.getD 0 := by
  unfold applyGroupMutations
  rw [applyStatus_total, applyStatus_total, applyHours_credit]
  split_ifs <;> norm_num

/-- The dedupe set only grows within a slot. -/
theorem dedupe_state_mono (ids : List Nat) (st : SlotState) :
    ∀ i ∈ st.updatedInSlot, i ∈ (dedupeForHours ids st).2.updatedInSlot := by
  induction ids generalizing st with
  | nil => simp [dedupeForHours]
  | cons j rest ih =>
    intro i hi
    by_cases hj : j ∈ st.updatedInSlot
    · simp only [dedupeForHours, hj, if_true]
      exact ih st i hi
    · simp only [dedupeForHours, hj, if_false]
      exact ih _ i (List.mem_cons_of_mem j hi)

/-- Ids surviving the dedupe were not yet credited in this slot. -/
theorem dedupe_out_fresh (ids : List Nat) (st : SlotState) :
    ∀ i ∈ (dedupeForHours ids st).1, i ∉ st.updatedInSlot := by
  induction ids generalizing st with
  | nil => simp [dedupeForHours]
  | cons j rest ih =>
    intro i hi
    by_cases hj : j ∈ st.updatedInSlot
    · simp only [dedupeForHours, hj, if_true] at hi
      exact ih st i hi
    · simp only [dedupeForHours, hj, if_false, List.mem_cons] at hi
      rcases hi with rfl | hi
      · exact hj
      · have := ih { st with updatedInSlot := j :: st.updatedInSlot } i hi
        intro hmem
        exact this (List.mem_cons_of_mem j hmem)

/-- Ids surviving the dedupe are recorded in the resulting dedupe set. -/
theorem dedupe_out_recorded (ids : List Nat) (st : SlotState) :
    ∀ i ∈ (dedupeForHours ids st).1, i ∈ (dedupeForHours ids st).2.updatedInSlot := by
  induction ids generalizing st with
  | nil => simp [dedupeForHours]
  | cons j rest ih =>
    intro i hi
    by_cases hj : j ∈ st.updatedInSlot
    · simp only [dedupeForHours, hj, if_true] at hi ⊢
      exact ih st i hi
    · simp only [dedupeForHours, hj, if_false, List.mem_cons] at hi ⊢
      rcases hi with rfl | hi
      · exact dedupe_state_mono rest _ i (List.mem_cons_self i _)
      · exact ih _ i hi

/-- The deduped output of one call never repeats an id. -/
theorem dedupe_nodup (ids : List Nat) (st : SlotState) :
    ((dedupeForHours ids st).1).Nodup := by
  induction ids generalizing st with
  | nil => simp [dedupeForHours]
  | cons j rest ih =>
    by_cases hj : j ∈ st.updatedInSlot
    · simp only [dedupeForHours, hj, if_true]
      exact ih st
    · simp only [dedupeForHours, hj, if_false, List.nodup_cons]
      refine ⟨?_, ih _⟩
      intro hmem
      have := dedupe_out_fresh rest { st with updatedInSlot := j :: st.updatedInSlot } j hmem
      exact this (List.mem_cons_self j _)

/-- C5: each hours credit is exactly +0.25 (and only for targeted,
non-maintenance rows), the coalesced hours counter is non-decreasing across
any sequence of tick mutations, the per-slot dedupe gives each miner id at
most once within a slot (no duplicates in one call, nothing already
credited, and nothing across two calls of the same slot), and the dedupe
set survives `beginSlot` of the same slot and is cleared exactly when the
slot identifier advances. -/
theorem c5_hours_increment_dedupe :
    (∀ (ids : List Nat) (r : MinerRow),
        (applyHours ids r).total_horas_online.getD 0 =
          r.total_horas_online.getD 0 +
            (if r.id ∈ ids ∧ ¬ isMaintenance r.status then (1 : ℚ)/4 else 0)) ∧
    (∀ (ticks : List (List Nat × List Nat × List Nat)) (r : MinerRow),
        r.total_horas_online.getD 0 ≤ (applyTicks ticks r).total_horas_online.getD 0) ∧
    (∀ (ids : List Nat) (st : SlotState), ((dedupeForHours ids st).1).Nodup) ∧
    (∀ (ids : List Nat) (st : SlotState) (i : Nat),
        i ∈ (dedupeForHours ids st).1 → i ∉ st.updatedInSlot) ∧
    (∀ (ids1 ids2 : List Nat) (st : SlotState) (i : Nat),
        i ∈ (dedupeForHours ids1 st).1 →
        i ∉ (dedupeForHours ids2 (dedupeForHours ids1 st).2).1) ∧
    (∀ (s : String) (st : SlotState), st.lastSlot = some s → beginSlot s st = st) ∧
    (∀ (s : String) (st : SlotState),
        st.lastSlot ≠ some s → beginSlot s st = ⟨some s, []⟩) := by
  refine ⟨applyHours_credit, ?_, dedupe_nodup, dedupe_out_fresh, ?_, ?_, ?_⟩
  · intro ticks
    induction ticks with
    | nil => intro r; simp [applyTicks]
    | cons t rest ih =>
      intro r
      calc r.total_horas_online.getD 0
          ≤ (applyGroupMutations t.1 t.2.1 t.2.2 r).total_horas_online.getD 0 :=
            tick_total_mono t.1 t.2.1 t.2.2 r
        _ ≤ (applyTicks rest (applyGroupMutations t.1 t.2.1 t.2.2 r)).total_horas_online.getD 0 :=
            ih (applyGroupMutations t.1 t.2.1 t.2.2 r)
  · intro ids1 ids2 st i h1 h2
    exact dedupe_out_fresh ids2 _ i h2 (dedupe_out_recorded ids1 st i h1)
  · intro s st h
    simp [beginSlot, h]
  · intro s st h
    simp [beginSlot, h]

/-- Witness for C5 at concrete inputs (the conjuncts with hypotheses
discharged at a concrete slot state and slot strings). -/
theorem c5_hours_increment_dedupe_witness :
    (1 ∈ (dedupeForHours [1, 2] ⟨some "s", []⟩).1 ∧
     1 ∉ (dedupeForHours [1] (dedupeForHours [1, 2] ⟨some "s", []⟩).2).1) ∧
    ((⟨some "s", [2]⟩ : SlotState).lastSlot = some "s" ∧
     beginSlot "s" ⟨some "s", [2]⟩ = ⟨some "s", [2]⟩) ∧
    ((⟨some "s", [2]⟩ : SlotState).lastSlot ≠ some "t" ∧
     beginSlot "t" ⟨some "s", [2]⟩ = ⟨some "t", []⟩) :=
  ⟨⟨by decide, c5_hours_increment_dedupe.2.2.2.2.1 [1, 2] [1] ⟨some "s", []⟩ 1 (by decide)⟩,
   ⟨rfl, c5_hours_increment_dedupe.2.2.2.2.2.1 "s" ⟨some "s", [2]⟩ rfl⟩,
   ⟨by decide, c5_hours_increment_dedupe.2.2.2.2.2.2 "t" ⟨some "s", [2]⟩ (by decide)⟩⟩

/-- C6 counterexample: the claim's billing condition (spec-modelled:
grace 30 minutes OR stored status `online`) credits a stored-`online` miner
with no `lastOnline` marker during an API-failure slot, but the MiningDutch
job's `classifyErrorWithGrace` credits nothing for it. -/
theorem c6_counterexample :
    specGraceCredited ⟨[], []⟩ 1000 ⟨1, "a.w1", some "online"⟩ = true ∧
    ((MD.processGroup 1000 [⟨1, "a.w1", some "online"⟩] .fail ⟨[], []⟩).1).fallback = [] := by
  constructor
  · decide
  · rfl

/-- C6 (amended): during an API-failure slot the MiningDutch job credits a
miner iff its `lastOnline` marker exists and lies within
`GRACE_MINUTES = 60` of the slot; the stored status plays no role, and no
status id list is produced. -/
theorem c6_api_failure_grace :
    (∀ (slotMin : Int) (m : MD.Miner) (st : MD.Redis),
        m.id ∈ ((MD.processGroup slotMin [m] .fail st).1).fallback ↔
          ∃ t, MD.getLastOnline st m.id = some t ∧
               MD.minutesDiff t slotMin ≤ MD.GRACE_MINUTES) ∧
    MD.GRACE_MINUTES = 60 ∧
    (∀ (slotMin : Int) (m : MD.Miner) (st : MD.Redis) (s2 : Option String),
        ((MD.processGroup slotMin [⟨m.id, m.worker_name, s2⟩] .fail st).1).fallback =
          ((MD.processGroup slotMin [m] .fail st).1).fallback) := by
  refine ⟨?_, rfl, ?_⟩
  · intro slotMin m st
    unfold MD.processGroup
    simp only [List.filter, MD.graceCredited]
    cases h : MD.getLastOnline st m.id with
    | none => simp
    | some t =>
      by_cases hd : MD.minutesDiff t slotMin ≤ MD.GRACE_MINUTES <;> simp [hd]
  · intro slotMin m st s2
    simp only [MD.processGroup, List.filter, MD.graceCredited]
    cases h : MD.getLastOnline st m.id with
    | none => simp
    | some t =>
      by_cases hd : MD.minutesDiff t slotMin ≤ MD.GRACE_MINUTES <;> simp [hd]

/-- C7 (amended): the ViaBTC, F2Pool and MiningDutch adapters return `Fail`
(never an empty `Ok`) on transport errors, HTTP errors, logical error codes
and unparseable payloads, and the Binance adapter fails on geoblock / auth /
HTTP errors; but the LiteCoinPool adapter returns an empty `Ok` map whenever
the payload is unparseable (only transport raises), and the Binance adapter
returns `Ok []` for an unparseable 2xx payload. -/
theorem c7_adapter_failure_modes :
    (∀ (rOk : Bool) (p : Option Via.Payload), Via.fetchViaBTCListOnce true rOk p = .fail) ∧
    (∀ p : Option Via.Payload, Via.fetchViaBTCListOnce false false p = .fail) ∧
    Via.fetchViaBTCListOnce false true none = .fail ∧
    (∀ p : Via.Payload, p.code ≠ 0 → Via.fetchViaBTCListOnce false true (some p) = .fail) ∧
    (∀ c : Int, Via.fetchViaBTCListOnce false true (some ⟨c, none⟩) = .fail) ∧
    (∀ p : Option F2.Payload, F2.f2poolV2Workers true false p = .fail "http") ∧
    F2.f2poolV2Workers true true none = .fail "v2_empty" ∧
    (∀ (arr : List F2.Worker) (c : Int), c ≠ 0 →
        F2.f2poolV2Workers true true (some ⟨some c, arr⟩) =
          .fail ("v2_code_" ++ toString c)) ∧
    (∀ rs : List MD.FetchResp, (∀ r ∈ rs, r = .httpErr ∨ r = .schemaBad) →
        MD.fetchMiningDutchWorkers rs = .fail) ∧
    (∀ p, Bin.binanceListWorkers 451 p = .fail "geoblocked") ∧
    (∀ p, Bin.binanceListWorkers 401 p = .fail "auth") ∧
    (∀ p, Bin.binanceListWorkers 403 p = .fail "auth") ∧
    (∀ p, Bin.binanceListWorkers 500 p = .fail "http") ∧
    (∀ p, LTC.fetchLitecoinPoolWorkers true p = .fail) ∧
    LTC.fetchLitecoinPoolWorkers false none = .ok [] ∧
    Bin.binanceListWorkers 200 none = .ok [] := by
  refine ⟨fun _ _ => rfl, fun _ => rfl, rfl, ?_, ?_, fun _ => rfl, rfl, ?_, ?_,
    fun _ => rfl, fun _ => rfl, fun _ => rfl, fun _ => rfl, fun _ => rfl, rfl, rfl⟩
  · intro p hp
    simp [Via.fetchViaBTCListOnce, hp]
  · intro c
    by_cases hc : c = 0 <;> simp [Via.fetchViaBTCListOnce, hc]
  · intro arr c hc
    simp [F2.f2poolV2Workers, hc]
  · intro rs h
    induction rs with
    | nil => rfl
    | cons r rest ih =>
      rcases h r (List.mem_cons_self r rest) with rfl | rfl <;>
        exact ih (fun r2 hr2 => h r2 (List.mem_cons_of_mem _ hr2))

/-- Witness for C7 (amended) at concrete inputs: a logical-error ViaBTC
payload, a nonzero F2Pool code, and a MiningDutch URL walk that only saw
HTTP and schema failures. -/
theorem c7_adapter_failure_modes_witness :
    ((⟨5, some []⟩ : Via.Payload).code ≠ 0 ∧
     Via.fetchViaBTCListOnce false true (some ⟨5, some []⟩) = .fail) ∧
    ((7 : Int) ≠ 0 ∧
     F2.f2poolV2Workers true true (some ⟨some 7, [⟨"w", 1, none, 0⟩]⟩) =
       .fail "v2_code_7") ∧
    ((∀ r ∈ ([.httpErr, .schemaBad] : List MD.FetchResp), r = .httpErr ∨ r = .schemaBad) ∧
     MD.fetchMiningDutchWorkers [.httpErr, .schemaBad] = .fail) :=
  ⟨⟨by decide, c7_adapter_failure_modes.2.2.2.1 ⟨5, some []⟩ (by decide)⟩,
   ⟨by decide, c7_adapter_failure_modes.2.2.2.2.2.2.2.1 [⟨"w", 1, none, 0⟩] 7 (by decide)⟩,
   ⟨by decide, c7_adapter_failure_modes.2.2.2.2.2.2.2.2.1 [.httpErr, .schemaBad] (by decide)⟩⟩

/-- C8 (amended): four of the five jobs (F2Pool, LiteCoinPool, Binance with
TTL 14 min; MiningDutch with TTL 20 min — all within the claimed 14–20 min
band) begin by acquiring `uptime:<slot>:<pool>` with SET NX and return early
with no group processed when the key is already held; the ViaBTC job
acquires no slot lock at all: its tick always proceeds and never touches the
lock store. -/
theorem c8_slot_lock_gating :
    (∀ (env : LockEnv) (slot : String) (groups : List (List F2.Miner × F2.Outcome)),
        (slotLockKey slot "f2pool" ∈ env.held →
          runUptimeF2PoolOnce env slot groups = (env, none)) ∧
        (slotLockKey slot "f2pool" ∉ env.held →
          (runUptimeF2PoolOnce env slot groups).1.held =
              slotLockKey slot "f2pool" :: env.held ∧
            (runUptimeF2PoolOnce env slot groups).2.isSome)) ∧
    (∀ (env : LockEnv) (slot : String) (groups : List (List LTC.Miner × LTC.FetchOutcome)),
        (slotLockKey slot "ltcpool" ∈ env.held →
          runUptimeLTCPoolOnce env slot groups = (env, none)) ∧
        (slotLockKey slot "ltcpool" ∉ env.held →
          (runUptimeLTCPoolOnce env slot groups).1.held =
              slotLockKey slot "ltcpool" :: env.held ∧
            (runUptimeLTCPoolOnce env slot groups).2.isSome)) ∧
    (∀ (env : LockEnv) (slot : String) (bp : Bool)
        (groups : List (List Bin.Miner × Bin.ListOutcome)),
        (slotLockKey slot "binance" ∈ env.held →
          runUptimeBinanceOnce env slot bp groups = (env, none)) ∧
        (slotLockKey slot "binance" ∉ env.held →
          (runUptimeBinanceOnce env slot bp groups).1.held =
              slotLockKey slot "binance" :: env.held ∧
            (runUptimeBinanceOnce env slot bp groups).2.isSome)) ∧
    (∀ (env : LockEnv) (slot : String) (slotMin : Int)
        (groups : List (List MD.Miner × MD.Outcome)) (st : MD.Redis),
        (slotLockKey slot "miningdutch" ∈ env.held →
          runUptimeMiningDutchOnce env slot slotMin groups st = (env, none)) ∧
        (slotLockKey slot "miningdutch" ∉ env.held →
          (runUptimeMiningDutchOnce env slot slotMin groups st).1.held =
              slotLockKey slot "miningdutch" :: env.held ∧
            (runUptimeMiningDutchOnce env slot slotMin groups st).2.isSome)) ∧
    (14 * 60 ≤ F2_LOCK_EX ∧ F2_LOCK_EX ≤ 20 * 60) ∧
    (14 * 60 ≤ LTC_LOCK_EX ∧ LTC_LOCK_EX ≤ 20 * 60) ∧
    (14 * 60 ≤ BIN_LOCK_EX ∧ BIN_LOCK_EX ≤ 20 * 60) ∧
    (14 * 60 ≤ MD_LOCK_EX ∧ MD_LOCK_EX ≤ 20 * 60) ∧
    (∀ (env : LockEnv) (slot : String)
        (groups : List (List Via.Miner × Via.FetchOutcome × Via.FetchOutcome)),
        (runUptimeViaBTCOnce env slot groups).1 = env ∧
        (runUptimeViaBTCOnce env slot groups).2.isSome) := by
  refine ⟨?_, ?_, ?_, ?_, ⟨by decide, by decide⟩, ⟨by decide, by decide⟩,
    ⟨by decide, by decide⟩, ⟨by decide, by decide⟩, fun env slot groups => ⟨rfl, rfl⟩⟩
  · intro env slot groups
    constructor
    · intro h
      simp [runUptimeF2PoolOnce, redisSetNx, h]
    · intro h
      simp [runUptimeF2PoolOnce, redisSetNx, h]
  · intro env slot groups
    constructor
    · intro h
      simp [runUptimeLTCPoolOnce, redisSetNx, h]
    · intro h
      simp [runUptimeLTCPoolOnce, redisSetNx, h]
  · intro env slot bp groups
    constructor
    · intro h
      simp [runUptimeBinanceOnce, redisSetNx, h]
    · intro h
      cases bp <;> simp [runUptimeBinanceOnce, redisSetNx, h]
  · intro env slot slotMin groups st
    constructor
    · intro h
      simp [runUptimeMiningDutchOnce, redisSetNx, h]
    · intro h
      simp [runUptimeMiningDutchOnce, redisSetNx, h]

/-- Witness for C8 (amended): a held and a free lock key at a concrete slot
for the MiningDutch job, plus the ViaBTC tick proceeding under a held key. -/
theorem c8_slot_lock_gating_witness :
    (slotLockKey "S" "miningdutch" ∈ (⟨[slotLockKey "S" "miningdutch"]⟩ : LockEnv).held ∧
     runUptimeMiningDutchOnce ⟨[slotLockKey "S" "miningdutch"]⟩ "S" 0 [] ⟨[], []⟩ =
       (⟨[slotLockKey "S" "miningdutch"]⟩, none)) ∧
    (slotLockKey "S" "f2pool" ∉ (⟨[]⟩ : LockEnv).held ∧
     (runUptimeF2PoolOnce ⟨[]⟩ "S" []).1.held = slotLockKey "S" "f2pool" :: [] ∧
     (runUptimeF2PoolOnce ⟨[]⟩ "S" []).2.isSome) :=
  ⟨⟨by decide,
    (c8_slot_lock_gating.2.2.2.1 ⟨[slotLockKey "S" "miningdutch"]⟩ "S" 0 [] ⟨[], []⟩).1
      (by decide)⟩,
   ⟨by decide, (c8_slot_lock_gating.1 ⟨[]⟩ "S" []).2 (by decide)⟩⟩

/- ---------- read-path batch lemmas ---------- -/

theorem svc_lastFind_id (l : List Svc.Data) (id : String) (o : Svc.Data)
    (h : Svc.lastFind l id = some o) : o.id = id := by
  have := List.find?_some h
  simpa using this

theorem svc_lastFind_mem (l : List Svc.Data) (id : String) (o : Svc.Data)
    (h : Svc.lastFind l id = some o) : o ∈ l := by
  have := List.mem_of_find?_eq_some h
  simpa [List.mem_reverse] using this

theorem svc_lastFind_none (l : List Svc.Data) (id : String)
    (h : ∀ o ∈ l, o.id ≠ id) : Svc.lastFind l id = none := by
  apply List.find?_eq_none.2
  intro o ho
  simp [h o (List.mem_reverse.1 ho)]

theorem svc_lastFind_append_right_none (l1 l2 : List Svc.Data) (id : String)
    (h : ∀ o ∈ l2, o.id ≠ id) : Svc.lastFind (l1 ++ l2) id = Svc.lastFind l1 id := by
  unfold Svc.lastFind
  rw [List.reverse_append, List.find?_append]
  have h2 : l2.reverse.find? (fun o => o.id = id) = none :=
    List.find?_eq_none.2 (fun o ho => by simp [h o (List.mem_reverse.1 ho)])
  rw [h2, Option.none_or]

theorem svc_cacheGet_id (cache : Svc.Cache) (id : String) (e : Svc.CacheEntry)
    (hc : Svc.CacheOk cache) (h : Svc.cacheGet cache id = some e) : e.data.id = id := by
  unfold Svc.cacheGet at h
  cases hfind : cache.find? (fun p => p.1 = id) with
  | none => rw [hfind] at h; simp at h
  | some p =>
    rw [hfind] at h
    simp at h
    have hp : p.1 = id := by simpa using List.find?_some hfind
    have hm := List.mem_of_find?_eq_some hfind
    rw [← h, hc p hm, hp]

theorem svc_fresh_cacheGet (cache : Svc.Cache) (id : String) (now : Int)
    (h : Svc.fresh cache id now = true) :
    ∃ e, Svc.cacheGet cache id = some e ∧ now - e.ts < Svc.CACHE_TTL_MS := by
  unfold Svc.fresh at h
  cases hg : Svc.cacheGet cache id with
  | none => rw [hg] at h; simp at h
  | some e => rw [hg] at h; exact ⟨e, rfl, by simpa using h⟩

theorem svc_mem_outOf (ids : List String) (cache : Svc.Cache) (now : Int) (o : Svc.Data)
    (h : o ∈ Svc.outOf ids cache now) :
    ∃ id e, id ∈ ids ∧ Svc.fresh cache id now = true ∧
      Svc.cacheGet cache id = some e ∧ o = e.data := by
  simp only [Svc.outOf, List.mem_filterMap, List.mem_filter] at h
  obtain ⟨id, ⟨hid, hfr⟩, hmap⟩ := h
  cases hg : Svc.cacheGet cache id with
  | none => rw [hg] at hmap; simp at hmap
  | some e =>
    rw [hg] at hmap
    simp at hmap
    exact ⟨id, e, hid, hfr, hg, hmap.symm⟩

theorem svc_lastFind_outOf_fresh (ids : List String) (cache : Svc.Cache) (now : Int)
    (id : String) (hc : Svc.CacheOk cache)
    (hfr : Svc.fresh cache id now = true) (hmem : id ∈ ids) :
    Svc.lastFind (Svc.outOf ids cache now) id = (Svc.cacheGet cache id).map (·.data) := by
  obtain ⟨e, hg, _⟩ := svc_fresh_cacheGet cache id now hfr
  rw [hg]
  have hedata : e.data.id = id := svc_cacheGet_id cache id e hc hg
  have hin : e.data ∈ Svc.outOf ids cache now := by
    simp only [Svc.outOf, List.mem_filterMap, List.mem_filter]
    exact ⟨id, ⟨hmem, hfr⟩, by rw [hg]; rfl⟩
  cases hLF : Svc.lastFind (Svc.outOf ids cache now) id with
  | none =>
    exfalso
    have := List.find?_eq_none.1 hLF e.data (List.mem_reverse.2 hin)
    simp [hedata] at this
  | some o =>
    have ho := svc_lastFind_id _ _ _ hLF
    obtain ⟨id2, e2, hid2, hfr2, hg2, rfl⟩ := svc_mem_outOf _ _ _ _ (svc_lastFind_mem _ _ _ hLF)
    have : id2 = id := by rw [← svc_cacheGet_id cache id2 e2 hc hg2]; exact ho
    subst this
    rw [hg2] at hg
    simp at hg
    simp [hg]

theorem svc_lastFind_outOf_stale (ids : List String) (cache : Svc.Cache) (now : Int)
    (id : String) (hc : Svc.CacheOk cache) (hfr : Svc.fresh cache id now = false) :
    Svc.lastFind (Svc.outOf ids cache now) id = none := by
  apply svc_lastFind_none
  intro o ho
  obtain ⟨id2, e2, _, hfr2, hg2, rfl⟩ := svc_mem_outOf _ _ _ _ ho
  rw [svc_cacheGet_id cache id2 e2 hc hg2]
  intro heq
  rw [heq] at hfr2
  exact Bool.noConfusion (hfr2.symm.trans hfr)

theorem svc_find_pairs_map (l : List String) (v : String → Svc.Data) (id : String)
    (hmem : id ∈ l) :
    (l.map (fun i => (i, v i))).find? (fun p => p.1 = id) = some (id, v id) := by
  induction l with
  | nil => simp at hmem
  | cons j rest ih =>
    by_cases hj : j = id
    · subst hj
      simp [List.find?]
    · rcases List.mem_cons.1 hmem with h | h
      · exact absurd h.symm hj
      · simp only [List.map_cons, List.find?]
        rw [show (decide (j = id)) = false by simp [hj]]
        exact ih h

theorem svc_find_map_value (l : List String) (v : String → Svc.Data) (id : String)
    (hv : ∀ i, (v i).id = i) (hmem : id ∈ l) :
    (l.map v).find? (fun o => o.id = id) = some (v id) := by
  induction l with
  | nil => simp at hmem
  | cons j rest ih =>
    by_cases hj : j = id
    · subst hj
      simp [List.find?, hv j]
    · rcases List.mem_cons.1 hmem with h | h
      · exact absurd h.symm hj
      · simp only [List.map_cons, List.find?]
        rw [show (decide ((v j).id = id)) = false by simp [hv j, hj]]
        exact ih h

theorem svc_lastFind_map (l : List String) (v : String → Svc.Data) (id : String)
    (hv : ∀ i, (v i).id = i) (hmem : id ∈ l) :
    Svc.lastFind (l.map v) id = some (v id) := by
  unfold Svc.lastFind
  rw [← List.map_reverse]
  exact svc_find_map_value l.reverse v id hv (List.mem_reverse.2 hmem)

theorem filterMap_eq_map_of {α β : Type} (l : List α) (g : α → Option β) (v : α → β)
    (h : ∀ a ∈ l, g a = some (v a)) : l.filterMap g = l.map v := by
  induction l with
  | nil => rfl
  | cons a t ih =>
    rw [List.filterMap_cons, h a (List.mem_cons_self a t),
      ih (fun x hx => h x (List.mem_cons_of_mem a hx)), List.map_cons]

theorem svc_cacheGet_foldl (pairs : List (String × Svc.Data)) (c0 : Svc.Cache) (ts : Int)
    (id : String) :
    Svc.cacheGet (pairs.foldl (fun c p => Svc.cacheSet c p.1 ⟨p.2, ts⟩) c0) id =
      (match (pairs.reverse).find? (fun p => p.1 = id) with
       | some p => some ⟨p.2, ts⟩
       | none => Svc.cacheGet c0 id) := by
  induction pairs generalizing c0 with
  | nil => simp
  | cons p rest ih =>
    rw [List.foldl_cons, ih, List.reverse_cons, List.find?_append]
    cases hfind : rest.reverse.find? (fun q => q.1 = id) with
    | some q => simp
    | none =>
      simp only [Option.none_or]
      by_cases hp : p.1 = id
      · simp [List.find?, hp, Svc.cacheGet, Svc.cacheSet]
      · simp [List.find?, hp, Svc.cacheGet, Svc.cacheSet]

theorem svc_map_assemble_ids (ids : List String) (l : List Svc.Data) (ec : String) :
    ((ids.map (fun id => match Svc.lastFind l id with
      | some o => o
      | none => Svc.fallbackEntry id ec)).map (·.id)) = ids := by
  rw [List.map_map]
  conv_rhs => rw [← List.map_id ids]
  apply List.map_congr_left
  intro id _
  simp only [Function.comp_apply, id_eq]
  cases h : Svc.lastFind l id with
  | none => rfl
  | some o => exact svc_lastFind_id l id o h

theorem svc_response_ids (ids : List String) (now : Int) (cache : Svc.Cache)
    (db : Except String (List (String × Svc.Rec))) (f : String → Option Svc.Rec → Svc.Data) :
    ((Svc.getMinersStatusMany ids now cache db f).response).map (·.id) = ids := by
  simp only [Svc.getMinersStatusMany]
  split
  · exact svc_map_assemble_ids ids _ "no_cached_data"
  · cases db with
    | error e => exact svc_map_assemble_ids ids _ e
    | ok rows => exact svc_map_assemble_ids ids _ "no_data"

theorem svc_fresh_not_fetched (ids : List String) (now : Int) (cache : Svc.Cache)
    (db : Except String (List (String × Svc.Rec))) (f : String → Option Svc.Rec → Svc.Data)
    (id : String) (hfr : Svc.fresh cache id now = true) :
    id ∉ (Svc.getMinersStatusMany ids now cache db f).fetched := by
  simp only [Svc.getMinersStatusMany]
  split
  · simp
  · cases db with
    | error e => simp
    | ok rows =>
      simp only [Svc.toFetchOf]
      intro hmem
      have := (List.mem_filter.1 hmem).2
      rw [hfr] at this
      simp at this

theorem svc_outBatch_other (ids : List String) (now : Int) (cache : Svc.Cache)
    (rows : List (String × Svc.Rec)) (f : String → Option Svc.Rec → Svc.Data)
    (hf : ∀ id rec, (f id rec).id = id) (id : String) (hfr : Svc.fresh cache id now = true) :
    ∀ o ∈ ((Svc.toFetchOf ids cache now).map
        (fun id2 => (id2, f id2 (Svc.recFor rows id2)))).map (·.2), o.id ≠ id := by
  intro o ho
  simp only [List.map_map, List.mem_map, Function.comp_apply] at ho
  obtain ⟨id2, hid2, rfl⟩ := ho
  rw [hf id2 _]
  have hstale := (List.mem_filter.1 hid2).2
  intro heq
  rw [heq, hfr] at hstale
  simp at hstale

theorem svc_fresh_served_from_cache (ids : List String) (now : Int) (cache : Svc.Cache)
    (db : Except String (List (String × Svc.Rec))) (f : String → Option Svc.Rec → Svc.Data)
    (hc : Svc.CacheOk cache) (hf : ∀ id rec, (f id rec).id = id)
    (i : Nat) (hi : i < ids.length)
    (hfr : Svc.fresh cache (ids.get ⟨i, hi⟩) now = true) :
    (Svc.getMinersStatusMany ids now cache db f).response[i]? =
      (Svc.cacheGet cache (ids.get ⟨i, hi⟩)).map (·.data) := by
  have hmem : ids.get ⟨i, hi⟩ ∈ ids := List.get_mem ids i hi
  have hids : ids[i]? = some (ids.get ⟨i, hi⟩) := List.getElem?_eq_getElem hi
  have hLF := svc_lastFind_outOf_fresh ids cache now (ids.get ⟨i, hi⟩) hc hfr hmem
  obtain ⟨e, hg, _⟩ := svc_fresh_cacheGet cache (ids.get ⟨i, hi⟩) now hfr
  simp only [Svc.getMinersStatusMany]
  split
  · rw [List.getElem?_map, hids]
    simp only [Option.map_some']
    rw [hLF, hg]
    rfl
  · cases db with
    | error e2 =>
      rw [List.getElem?_map, hids]
      simp only [Option.map_some']
      rw [hLF, hg]
      rfl
    | ok rows =>
      rw [List.getElem?_map, hids]
      simp only [Option.map_some']
      rw [svc_lastFind_append_right_none _ _ _
        (svc_outBatch_other ids now cache rows f hf _ hfr), hLF, hg]
      rfl

theorem svc_db_error (ids : List String) (now : Int) (cache : Svc.Cache) (ec : String)
    (f : String → Option Svc.Rec → Svc.Data) (hc : Svc.CacheOk cache) :
    (Svc.getMinersStatusMany ids now cache (.error ec) f).cache = cache ∧
    (Svc.getMinersStatusMany ids now cache (.error ec) f).fetched = [] ∧
    ∀ (i : Nat) (hi : i < ids.length),
      Svc.fresh cache (ids.get ⟨i, hi⟩) now = false →
        (Svc.getMinersStatusMany ids now cache (.error ec) f).response[i]? =
          some (Svc.fallbackEntry (ids.get ⟨i, hi⟩) ec) := by
  refine ⟨?_, ?_, ?_⟩
  · simp only [Svc.getMinersStatusMany]
    split <;> rfl
  · simp only [Svc.getMinersStatusMany]
    split <;> rfl
  · intro i hi hstale
    have hmem : ids.get ⟨i, hi⟩ ∈ ids := List.get_mem ids i hi
    have hids : ids[i]? = some (ids.get ⟨i, hi⟩) := List.getElem?_eq_getElem hi
    have hLF := svc_lastFind_outOf_stale ids cache now (ids.get ⟨i, hi⟩) hc hstale
    simp only [Svc.getMinersStatusMany]
    split
    · next htf =>
      exfalso
      have := List.filter_eq_nil_iff.1 htf _ hmem
      rw [hstale] at this
      simp at this
    · rw [List.getElem?_map, hids]
      simp only [Option.map_some']
      rw [hLF]

theorem svc_run_all_fresh (ids : List String) (now : Int) (cache : Svc.Cache)
    (db : Except String (List (String × Svc.Rec))) (f : String → Option Svc.Rec → Svc.Data)
    (v : String → Svc.Data) (hv : ∀ i, (v i).id = i)
    (hfr : ∀ id ∈ ids, Svc.fresh cache id now = true)
    (hget : ∀ id ∈ ids, (Svc.cacheGet cache id).map (·.data) = some (v id)) :
    Svc.getMinersStatusMany ids now cache db f = ⟨ids.map v, cache, []⟩ := by
  have htf : Svc.toFetchOf ids cache now = [] := by
    apply List.filter_eq_nil_iff.2
    intro a ha
    rw [hfr a ha]
    simp
  have hout : Svc.outOf ids cache now = ids.map v := by
    unfold Svc.outOf
    rw [List.filter_eq_self.2 (fun a ha => hfr a ha)]
    exact filterMap_eq_map_of _ _ _ (fun a ha => hget a ha)
  simp only [Svc.getMinersStatusMany, htf, hout, if_true]
  congr 1
  apply List.map_congr_left
  intro id hid
  rw [svc_lastFind_map ids v id hv hid]

theorem svc_run_cold (ids : List String) (t0 : Int)
    (rows : List (String × Svc.Rec)) (f : String → Option Svc.Rec → Svc.Data)
    (hv : ∀ i, (f i (Svc.recFor rows i)).id = i) (hne : ids ≠ []) :
    Svc.getMinersStatusMany ids t0 [] (.ok rows) f =
      ⟨ids.map (fun id => f id (Svc.recFor rows id)),
       (ids.map (fun id => (id, f id (Svc.recFor rows id)))).foldl
         (fun c p => Svc.cacheSet c p.1 ⟨p.2, t0⟩) [],
       ids⟩ := by
  have hfr0 : ∀ id, Svc.fresh [] id t0 = false := fun id => rfl
  have htf : Svc.toFetchOf ids [] t0 = ids := by
    apply List.filter_eq_self.2
    intro a _
    rw [hfr0 a]
    simp
  have hout : Svc.outOf ids [] t0 = [] := by
    unfold Svc.outOf
    have : ids.filter (fun id => Svc.fresh [] id t0) = [] := by
      apply List.filter_eq_nil_iff.2
      intro a _
      rw [hfr0 a]
      simp
    rw [this]
    rfl
  simp only [Svc.getMinersStatusMany, htf, hout, hne, if_false, List.nil_append]
  congr 1
  · apply List.map_congr_left
    intro id hid
    rw [List.map_map]
    have hcomp : ((fun (x : String × Svc.Data) => x.2) ∘ fun id => (id, f id (Svc.recFor rows id)))
        = fun i => f i (Svc.recFor rows i) := rfl
    rw [hcomp, svc_lastFind_map ids (fun i => f i (Svc.recFor rows i)) id hv hid]

theorem svc_back_to_back (ids : List String) (t0 t1 : Int)
    (rows : List (String × Svc.Rec)) (f : String → Option Svc.Rec → Svc.Data)
    (hf : ∀ id rec, (f id rec).id = id) (hts : t1 - t0 < Svc.CACHE_TTL_MS) :
    (Svc.getMinersStatusMany ids t1
        (Svc.getMinersStatusMany ids t0 [] (.ok rows) f).cache (.ok rows) f).response =
      (Svc.getMinersStatusMany ids t0 [] (.ok rows) f).response ∧
    (Svc.getMinersStatusMany ids t1
        (Svc.getMinersStatusMany ids t0 [] (.ok rows) f).cache (.ok rows) f).fetched = [] := by
  have hv : ∀ i, (f i (Svc.recFor rows i)).id = i := fun i => hf i _
  by_cases hne : ids = []
  · subst hne
    exact ⟨rfl, rfl⟩
  · have hr1 := svc_run_cold ids t0 rows f hv hne
    rw [hr1]
    have hget1 : ∀ id ∈ ids,
        Svc.cacheGet ((ids.map (fun id => (id, f id (Svc.recFor rows id)))).foldl
          (fun c p => Svc.cacheSet c p.1 ⟨p.2, t0⟩) []) id =
          some ⟨f id (Svc.recFor rows id), t0⟩ := by
      intro id hid
      rw [svc_cacheGet_foldl]
      rw [← List.map_reverse]
      rw [svc_find_pairs_map ids.reverse (fun i => f i (Svc.recFor rows i)) id
        (List.mem_reverse.2 hid)]
    have hfr1 : ∀ id ∈ ids,
        Svc.fresh ((ids.map (fun id => (id, f id (Svc.recFor rows id)))).foldl
          (fun c p => Svc.cacheSet c p.1 ⟨p.2, t0⟩) []) id t1 = true := by
      intro id hid
      unfold Svc.fresh
      rw [hget1 id hid]
      simpa using hts
    have hr2 := svc_run_all_fresh ids t1
      ((ids.map (fun id => (id, f id (Svc.recFor rows id)))).foldl
        (fun c p => Svc.cacheSet c p.1 ⟨p.2, t0⟩) [])
      (.ok rows) f (fun i => f i (Svc.recFor rows i)) hv hfr1
      (fun id hid => by rw [hget1 id hid]; rfl)
    rw [hr2]
    exact ⟨rfl, rfl⟩

/-- C9: `getMinersStatusMany` returns exactly one projection per requested
id in the requested order; an id whose cache entry is younger than 30 s is
never fetched (no adapter call) and is answered with the cached projection;
on database failure the cache is untouched, nothing is fetched, and every
non-cached id receives the offline fallback entry carrying the error code
while cached answers are preserved; and two back-to-back batch calls within
30 s return identical responses with no fetch in the second call. -/
theorem c9_batch_status_read :
    (∀ (ids : List String) (now : Int) (cache : Svc.Cache)
        (db : Except String (List (String × Svc.Rec)))
        (f : String → Option Svc.Rec → Svc.Data),
        ((Svc.getMinersStatusMany ids now cache db f).response).map (·.id) = ids) ∧
    (∀ (ids : List String) (now : Int) (cache : Svc.Cache)
        (db : Except String (List (String × Svc.Rec)))
        (f : String → Option Svc.Rec → Svc.Data) (id : String),
        Svc.fresh cache id now = true →
        id ∉ (Svc.getMinersStatusMany ids now cache db f).fetched) ∧
    (∀ (ids : List String) (now : Int) (cache : Svc.Cache)
        (db : Except String (List (String × Svc.Rec)))
        (f : String → Option Svc.Rec → Svc.Data),
        Svc.CacheOk cache → (∀ id rec, (f id rec).id = id) →
        ∀ (i : Nat) (hi : i < ids.length),
          Svc.fresh cache (ids.get ⟨i, hi⟩) now = true →
          (Svc.getMinersStatusMany ids now cache db f).response[i]? =
            (Svc.cacheGet cache (ids.get ⟨i, hi⟩)).map (·.data)) ∧
    (∀ (ids : List String) (now : Int) (cache : Svc.Cache) (ec : String)
        (f : String → Option Svc.Rec → Svc.Data),
        Svc.CacheOk cache →
        (Svc.getMinersStatusMany ids now cache (.error ec) f).cache = cache ∧
        (Svc.getMinersStatusMany ids now cache (.error ec) f).fetched = [] ∧
        ∀ (i : Nat) (hi : i < ids.length),
          Svc.fresh cache (ids.get ⟨i, hi⟩) now = false →
          (Svc.getMinersStatusMany ids now cache (.error ec) f).response[i]? =
            some (Svc.fallbackEntry (ids.get ⟨i, hi⟩) ec)) ∧
    (∀ (ids : List String) (t0 t1 : Int) (rows : List (String × Svc.Rec))
        (f : String → Option Svc.Rec → Svc.Data),
        (∀ id rec, (f id rec).id = id) → t1 - t0 < Svc.CACHE_TTL_MS →
        (Svc.getMinersStatusMany ids t1
            (Svc.getMinersStatusMany ids t0 [] (.ok rows) f).cache (.ok rows) f).response =
          (Svc.getMinersStatusMany ids t0 [] (.ok rows) f).response ∧
        (Svc.getMinersStatusMany ids t1
            (Svc.getMinersStatusMany ids t0 [] (.ok rows) f).cache (.ok rows) f).fetched = []) :=
  ⟨svc_response_ids, svc_fresh_not_fetched,
   fun ids now cache db f hc hf i hi hfr =>
     svc_fresh_served_from_cache ids now cache db f hc hf i hi hfr,
   fun ids now cache ec f hc => svc_db_error ids now cache ec f hc,
   fun ids t0 t1 rows f hf hts => svc_back_to_back ids t0 t1 rows f hf hts⟩

/-- Witness for C9 at concrete inputs: a warm cache entry for id "1" (10 s
old), a batch over ids ["1","2"] with a failing DB, and a cold-then-warm
pair of identical batch calls 100 ms apart. -/
theorem c9_batch_status_read_witness :
    (Svc.CacheOk [("1", ⟨⟨"1", "online", 5, true, none, none⟩, 990⟩)] ∧
     Svc.fresh [("1", ⟨⟨"1", "online", 5, true, none, none⟩, 990⟩)] "1" 1000 = true ∧
     Svc.fresh [("1", ⟨⟨"1", "online", 5, true, none, none⟩, 990⟩)] "2" 1000 = false) ∧
    (Svc.getMinersStatusMany ["1", "2"] 1000
        [("1", ⟨⟨"1", "online", 5, true, none, none⟩, 990⟩)] (.error "db_error")
        (fun id _ => ⟨id, "offline", 0, false, none, none⟩)).response[1]? =
      some (Svc.fallbackEntry "2" "db_error") ∧
    "1" ∉ (Svc.getMinersStatusMany ["1", "2"] 1000
        [("1", ⟨⟨"1", "online", 5, true, none, none⟩, 990⟩)] (.error "db_error")
        (fun id _ => ⟨id, "offline", 0, false, none, none⟩)).fetched ∧
    (Svc.getMinersStatusMany ["1"] 100
        (Svc.getMinersStatusMany ["1"] 0 [] (.ok [])
          (fun id _ => ⟨id, "offline", 0, false, none, none⟩)).cache (.ok [])
        (fun id _ => ⟨id, "offline", 0, false, none, none⟩)).response =
      (Svc.getMinersStatusMany ["1"] 0 [] (.ok [])
        (fun id _ => ⟨id, "offline", 0, false, none, none⟩)).response :=
  ⟨⟨by intro p hp; rw [List.mem_singleton] at hp; subst hp; rfl, by decide, by decide⟩,
   (c9_batch_status_read.2.2.2.1 ["1", "2"] 1000
       [("1", ⟨⟨"1", "online", 5, true, none, none⟩, 990⟩)] "db_error"
       (fun id _ => ⟨id, "offline", 0, false, none, none⟩)
       (by intro p hp; rw [List.mem_singleton] at hp; subst hp; rfl)).2.2 1
     (by decide) (by decide),
   c9_batch_status_read.2.1 ["1", "2"] 1000
     [("1", ⟨⟨"1", "online", 5, true, none, none⟩, 990⟩)] (.error "db_error")
     (fun id _ => ⟨id, "offline", 0, false, none, none⟩) "1" (by decide),
   (c9_batch_status_read.2.2.2.2 ["1"] 0 100 []
       (fun id _ => ⟨id, "offline", 0, false, none, none⟩) (fun _ _ => rfl)
       (by decide)).1⟩
